import Mathlib

/-!
A shallow embedding of go-pwnedpasswords, the k-anonymity lookup client.

The definitions below follow `client.go` (package `pwnedpasswords`) and the
vendored `humanize-go/numbers.go`.  Go strings and byte slices are sequences of
bytes, so both are lists of `UInt8`; machine words are natural numbers reduced
modulo `2^32`, and `int64` values are integers with the wrap-around written out.
-/

namespace PwnedPasswords

/-- Go `string` / `[]byte`: a finite sequence of bytes. -/
abbrev Bytes := List UInt8

/-- The bytes of a Go source literal (Go source text is UTF-8). -/
def str (s : String) : Bytes := s.data.flatMap String.utf8EncodeChar

/-! ## crypto/sha1 -/

/-- Rotate a 32-bit word left by `n` bits (`bits.RotateLeft32`). -/
def rotl32 (x n : Nat) : Nat := ((x <<< n) ||| (x >>> (32 - n))) % 2 ^ 32

/-- Big-endian bytes of the `k` low-order bytes of `v`. -/
def beBytes : Nat → Nat → List Nat
  | 0, _ => []
  | k + 1, v => (v >>> (8 * k)) % 256 :: beBytes k v

/-- Message padding: a `0x80` byte, zero bytes up to 56 modulo 64, then the
bit length as a 64-bit big-endian integer. -/
def sha1Pad (msg : Bytes) : List Nat :=
  msg.map UInt8.toNat ++ 0x80 :: List.replicate ((119 - msg.length % 64) % 64) 0
    ++ beBytes 8 ((8 * msg.length) % 2 ^ 64)

/-- Big-endian 32-bit words of a byte sequence (four bytes per word). -/
def beWords : Nat → List Nat → List Nat
  | 0, _ => []
  | k + 1, bs =>
    (bs.getD 0 0 <<< 24 ||| bs.getD 1 0 <<< 16 ||| bs.getD 2 0 <<< 8 ||| bs.getD 3 0)
      :: beWords k (bs.drop 4)

/-- The message schedule, most recent word first: `rev` holds `w[i-1], w[i-2], ...`
and each step adds `w[i] = rotl1 (w[i-3] ^ w[i-8] ^ w[i-14] ^ w[i-16])`. -/
def sha1Schedule : Nat → List Nat → List Nat
  | 0, rev => rev
  | k + 1, rev =>
    sha1Schedule k
      (rotl32 (rev.getD 2 0 ^^^ rev.getD 7 0 ^^^ rev.getD 13 0 ^^^ rev.getD 15 0) 1 :: rev)

/-- The five chaining words of SHA-1. -/
structure Sha1State where
  h0 : Nat
  h1 : Nat
  h2 : Nat
  h3 : Nat
  h4 : Nat
deriving DecidableEq, Repr

/-- The initial chaining value (`init0 .. init4`). -/
def sha1Init : Sha1State := ⟨0x67452301, 0xEFCDAB89, 0x98BADCFE, 0x10325476, 0xC3D2E1F0⟩

/-- One of the 80 rounds: `i` is the round number, `w` the schedule word. -/
def sha1Round (s : Sha1State) (i w : Nat) : Sha1State :=
  let f : Nat :=
    if i < 20 then (s.h1 &&& s.h2) ||| ((s.h1 ^^^ 0xFFFFFFFF) &&& s.h3)
    else if i < 40 then s.h1 ^^^ s.h2 ^^^ s.h3
    else if i < 60 then ((s.h1 ||| s.h2) &&& s.h3) ||| (s.h1 &&& s.h2)
    else s.h1 ^^^ s.h2 ^^^ s.h3
  let k : Nat :=
    if i < 20 then 0x5A827999
    else if i < 40 then 0x6ED9EBA1
    else if i < 60 then 0x8F1BBCDC
    else 0xCA62C1D6
  ⟨(rotl32 s.h0 5 + f + s.h4 + w + k) % 2 ^ 32, s.h0, rotl32 s.h1 30, s.h2, s.h3⟩

/-- Run the rounds over the schedule words, numbering them from `i`. -/
def sha1Rounds : Sha1State → Nat → List Nat → Sha1State
  | s, _, [] => s
  | s, i, w :: ws => sha1Rounds (sha1Round s i w) (i + 1) ws

/-- Compress one 64-byte block into the chaining value. -/
def sha1Block (h : Sha1State) (block : List Nat) : Sha1State :=
  let w := (sha1Schedule 64 (beWords 16 block).reverse).reverse
  let s := sha1Rounds h 0 w
  ⟨(h.h0 + s.h0) % 2 ^ 32, (h.h1 + s.h1) % 2 ^ 32, (h.h2 + s.h2) % 2 ^ 32,
    (h.h3 + s.h3) % 2 ^ 32, (h.h4 + s.h4) % 2 ^ 32⟩

/-- Compress `n` consecutive 64-byte blocks. -/
def sha1Blocks : Nat → Sha1State → List Nat → Sha1State
  | 0, h, _ => h
  | n + 1, h, data => sha1Blocks n (sha1Block h (data.take 64)) (data.drop 64)

/-- The 20-byte SHA-1 digest of a message: `h := sha1.New(); h.Write(msg); h.Sum(nil)`. -/
def sha1Sum (msg : Bytes) : Bytes :=
  let p := sha1Pad msg
  let h := sha1Blocks (p.length / 64) sha1Init p
  (beBytes 4 h.h0 ++ beBytes 4 h.h1 ++ beBytes 4 h.h2 ++ beBytes 4 h.h3 ++ beBytes 4 h.h4).map
    UInt8.ofNat

/-! ## fmt -/

/-- The digit alphabet used by the `%X` verb. -/
def udigits : Bytes := str "0123456789ABCDEF"

/-- The verb `%X` applied to a byte slice: two uppercase hexadecimal digits per byte. -/
def sprintfX : Bytes → Bytes
  | [] => []
  | b :: bs => udigits.getD (b.toNat / 16) 0 :: udigits.getD (b.toNat % 16) 0 :: sprintfX bs

/-! ## bufio, strings, strconv -/

/-- Go `bufio.MaxScanTokenSize`: the largest buffer a `Scanner` allocates. -/
def MaxScanTokenSize : Nat := 64 * 1024

/-- An `io.Reader` that delivers a finite byte stream without a transport error.
`eofWithData` tells whether the `Read` call that returns the last bytes reports
`io.EOF` in the same call (both behaviours are allowed by `io.Reader`). -/
structure Reader where
  data : Bytes
  eofWithData : Bool
deriving DecidableEq, Repr

/-- Go `bufio.dropCR`: drop one trailing carriage return. -/
def dropCR (data : Bytes) : Bytes :=
  if data.getLast? = some 13 then data.dropLast else data

/-- The tokens produced by `Scanner.Scan` with the default split function
`bufio.ScanLines`, as long as `Scan` returns true.  `cur` holds the bytes of the
current line, last byte first.  A line ends at a line feed; a final line without
a line feed is a token when it is not empty; `dropCR` is applied to each token.
`Scan` doubles its buffer up to `MaxScanTokenSize` bytes; when the buffer is full,
holds no complete token and no read has reported the end of the input, it sets
`ErrTooLong` and returns false, as it does on every later call.  So a line of
`MaxScanTokenSize` bytes or more before its line feed ends the scan, and a final
line without line feed of exactly `MaxScanTokenSize` bytes is a token only when the
read that filled the buffer also reported `io.EOF`. -/
def scanLoop (eofWithData : Bool) : Bytes → Bytes → List Bytes
  | [], cur =>
    if cur = [] then []
    else if cur.length < MaxScanTokenSize ∨ (cur.length = MaxScanTokenSize ∧ eofWithData = true)
    then [dropCR cur.reverse]
    else []
  | b :: rest, cur =>
    if b = 10 then
      if cur.length < MaxScanTokenSize then dropCR cur.reverse :: scanLoop eofWithData rest []
      else []
    else scanLoop eofWithData rest (b :: cur)

/-- The successive values of `scanner.Text()` for `scanner := bufio.NewScanner(r)`. -/
def scanTexts (r : Reader) : List Bytes := scanLoop r.eofWithData r.data []

/-- Go `strings.Split(s, sep)` for a separator of one byte. -/
def Split : Bytes → UInt8 → List Bytes
  | [], _ => [[]]
  | b :: s, sep =>
    if b = sep then [] :: Split s sep
    else
      match Split s sep with
      | [] => [[b]]
      | p :: ps => (b :: p) :: ps

/-- The value of a run of decimal digits, accumulated as `n*10 + digit`; `none` when
a byte is not in `'0'..'9'`. -/
def digitsValue : Bytes → Nat → Option Nat
  | [], n => some n
  | ch :: s, n =>
    if 48 ≤ ch.toNat ∧ ch.toNat ≤ 57 then digitsValue s (n * 10 + (ch.toNat - 48)) else none

/-- Go `strconv.Atoi` for an `int` of `intSize` bits; `none` stands for a non-nil error
(a string that is not an optional sign followed by decimal digits, or a value out of
range). -/
def Atoi (intSize : Nat) (s : Bytes) : Option Int :=
  match s with
  | [] => none
  | c :: rest =>
    let neg : Bool := c = 45
    let digits : Bytes := if c = 45 ∨ c = 43 then rest else s
    if digits = [] then none
    else
      match digitsValue digits 0 with
      | none => none
      | some n =>
        if neg then (if n ≤ 2 ^ (intSize - 1) then some (-(n : Int)) else none)
        else (if n < 2 ^ (intSize - 1) then some (n : Int) else none)

/-! ## net/http -/

/-- An `http.Request` as far as `getHashes` determines it. -/
structure Request where
  Method : Bytes
  URL : Bytes
  Header : List (Bytes × Bytes)
  Body : Option Bytes
deriving DecidableEq, Repr

/-- An `http.Response` as far as `getHashes` reads it. -/
structure Response where
  Status : Bytes
  StatusCode : Int
  Body : Reader
deriving DecidableEq, Repr

/-- Go `(*http.Client).Do`: the response, or the text of the transport error. -/
abbrev HTTPClient := Request → Except Bytes Response

/-- What the package takes from its platform and from `net/url`: the width of `int`
(`strconv.IntSize`) and the outcome of `url.Parse` (`none` when the string parses,
otherwise the text of the error). -/
structure Env where
  intSize : Nat
  urlParse : Bytes → Option Bytes

/-- Go `http.NewRequest(method, url, nil)`: fails when the URL does not parse. -/
def NewRequest (env : Env) (method url : Bytes) : Except Bytes Request :=
  match env.urlParse url with
  | some err => .error err
  | none => .ok { Method := method, URL := url, Header := [], Body := none }

/-- Go `req.Header.Set(key, value)` for a key in canonical form. -/
def Request.setHeader (req : Request) (key value : Bytes) : Request :=
  { req with Header := req.Header.filter (fun kv => kv.1 ≠ key) ++ [(key, value)] }

/-! ## client.go -/

/-- A suffix and the number of times it was seen (`type hashCount struct`). -/
structure hashCount where
  suffix : Bytes
  count : Int
deriving DecidableEq, Repr

/-- Go `const DefaultURL`. -/
def DefaultURL : Bytes := str "https://api.pwnedpasswords.com/range/"

/-- Go `const Version`. -/
def Version : Bytes := str "1.0.0"

/-- Go `const userAgent`. -/
def userAgent : Bytes :=
  str "go-pwnedpasswords/" ++ Version
    ++ str " (https://github.com/theckman/go-pwnedpasswords) Go-http-client/1.1"

/-- Go `type Client struct`: the base address and the `*http.Client`, which is `none`
for the nil pointer of the zero value `Client{}`. -/
structure Client where
  h : Bytes
  c : Option HTTPClient

/-- The errors the package creates, by the statement that creates them. -/
inductive Error where
  /-- Go `fmt.Errorf("failed to parse %q: %s", urlStr, err)` in `New`. -/
  | parseFailed (urlStr cause : Bytes)
  /-- The error of `http.NewRequest`, returned unchanged by `getHashes`. -/
  | newRequest (cause : Bytes)
  /-- Go `fmt.Errorf("http request to %q failed: %s", req.URL, err)`. -/
  | requestFailed (url cause : Bytes)
  /-- Go `fmt.Errorf("unexpected http status code: %s", resp.Status)`. -/
  | unexpectedStatus (status : Bytes)
  /-- Go `errors.New("no hashes in response")`. -/
  | noHashes
  /-- Go `fmt.Errorf("failed to get hashes: %s", err)` in `Check`. -/
  | getHashesFailed (cause : Error)
deriving DecidableEq, Repr

/-- The outcome of a call that may use the network: the requests handed to
`(*http.Client).Do`, in order, and the returned values, `none` when the call
panics (nil `*http.Client`). -/
structure Run (α : Type) where
  sent : List Request
  ret : Option α

/-- The body of the `for scanner.Scan()` loop of `readHashes`, over the remaining
texts of the scanner; `hashes` is the slice built so far. -/
def readHashesLoop (intSize : Nat) : List Bytes → List hashCount → List hashCount
  | [], hashes => hashes
  | text :: rest, hashes =>
    let parts := Split text 58
    if parts.length = 2 then
      match Atoi intSize (parts.getD 1 []) with
      | none => readHashesLoop intSize rest hashes
      | some i => readHashesLoop intSize rest (hashes ++ [{ suffix := parts.getD 0 [], count := i }])
    else readHashesLoop intSize rest hashes

/-- Go `readHashes`: the records of the lines of the form `SUFFIX:COUNT`, or the error
"no hashes in response" when there is none. -/
def readHashes (intSize : Nat) (r : Reader) : List hashCount × Option Error :=
  let hashes := readHashesLoop intSize (scanTexts r) []
  if hashes.length = 0 then ([], some Error.noHashes) else (hashes, none)

/-- The request `getHashes` builds: `http.NewRequest(http.MethodGet, c.h+prefix, nil)`
followed by `req.Header.Set("User-Agent", userAgent)`. -/
def getHashesRequest (env : Env) (c : Client) (pfx : Bytes) : Except Bytes Request :=
  match NewRequest env (str "GET") (c.h ++ pfx) with
  | .error err => .error err
  | .ok req => .ok (req.setHeader (str "User-Agent") userAgent)

/-- Go `getHashes`: request the range of `prefix` and read the records of the reply. -/
def getHashes (env : Env) (c : Client) (pfx : Bytes) : Run (List hashCount × Option Error) :=
  match getHashesRequest env c pfx with
  | .error err => ⟨[], some ([], some (Error.newRequest err))⟩
  | .ok req =>
    match c.c with
    | none => ⟨[], none⟩
    | some client =>
      match client req with
      | .error err => ⟨[req], some ([], some (Error.requestFailed req.URL err))⟩
      | .ok resp =>
        if resp.StatusCode ≠ 200 then
          ⟨[req], some ([], some (Error.unexpectedStatus resp.Status))⟩
        else ⟨[req], some (readHashes env.intSize resp.Body)⟩

/-- The loop `for _, hash := range hashes` of `Check` and the `return 0, nil` after it. -/
def checkLoop : List hashCount → Bytes → Int × Option Error
  | [], _ => (0, none)
  | hash :: rest, suffix => if hash.suffix = suffix then (hash.count, none) else checkLoop rest suffix

/-- Go `HashPassword`: the SHA-1 hash of the password, hex-encoded in upper case and
split into `hash[0:5]` and `hash[5:]`. -/
def HashPassword (password : Bytes) : Bytes × Bytes :=
  let hash := sprintfX (sha1Sum password)
  (hash.take 5, hash.drop 5)


/-- Go `Client.Check`: the number of times the password appears in the reply for its
prefix, `0` when it does not, or `-1` and an error. -/
def Check (env : Env) (c : Client) (password : Bytes) : Run (Int × Option Error) :=
  let hp := HashPassword password
  let r := getHashes env c hp.1
  match r.ret with
  | none => ⟨r.sent, none⟩
  | some (_, some err) => ⟨r.sent, some (-1, some (Error.getHashesFailed err))⟩
  | some (hashes, none) => ⟨r.sent, some (checkLoop hashes hp.2)⟩

/-- The body served by the test server of `client_test.go` (`testAPIOutput`). -/
def testAPIOutput : Bytes :=
  str "1E4C9B93F3F0682250B6CF8331B7EE68FD8:3303003\n4D0591EEAAC5A33064731DBD53F6A819DCE:0\n6101ED511A094D1E4E515BBF8D32B266090:42\n"

/-- The exchange that a claim about a reply presupposes: the URL of the request
parses, the client holds an `*http.Client`, and that client answers the request of
`Check` for this password with `resp`. -/
def Answers (env : Env) (c : Client) (password : Bytes) (resp : Response) : Prop :=
  ∃ req client, getHashesRequest env c (HashPassword password).1 = .ok req ∧
    c.c = some client ∧ client req = .ok resp

/-- A 64-bit platform on which every URL parses. -/
def env64 : Env := { intSize := 64, urlParse := fun _ => none }

/-- A client whose server answers every request with the given status and body. -/
def clientServing (status : Bytes) (code : Int) (body : Bytes) : Client :=
  { h := str "http://127.0.0.1/range/",
    c := some (fun _ => .ok { Status := status, StatusCode := code, Body := ⟨body, false⟩ }) }

/-- A reply in which the suffix of "password" occurs twice, with different counts. -/
def duplicateBody : Bytes :=
  str "4D0591EEAAC5A33064731DBD53F6A819DCE:0\n1E4C9B93F3F0682250B6CF8331B7EE68FD8:3303003\n1E4C9B93F3F0682250B6CF8331B7EE68FD8:7\n"

/-! ## The response format in the words of the specification -/

/-- The lines of a newline-delimited text: the runs of bytes between line feeds; a
last run that is not followed by a line feed is a line when it is not empty. -/
def bodyLines : Bytes → List Bytes
  | [] => []
  | b :: rest =>
    if b = 10 then [] :: bodyLines rest
    else
      match bodyLines rest with
      | [] => [[b]]
      | l :: ls => (b :: l) :: ls

/-- The record a line contributes: (field 1, integer value of field 2) when splitting
the line on `':'` gives exactly two fields and the second parses as an integer,
nothing otherwise. -/
def lineRecord (intSize : Nat) (line : Bytes) : Option hashCount :=
  match Split line 58 with
  | [field1, field2] =>
    match Atoi intSize field2 with
    | some i => some { suffix := field1, count := i }
    | none => none
  | _ => none

/-- The filtering pass over the lines of a body, in encounter order, each line taken
without its carriage return. -/
def filterPass (intSize : Nat) (body : Bytes) : List hashCount :=
  (bodyLines body).filterMap (fun l => lineRecord intSize (dropCR l))

/-- The lines of a text whose first line continues `cur` (held last byte first). -/
def continueLine (cur : Bytes) : List Bytes → List Bytes
  | [] => if cur = [] then [] else [cur.reverse]
  | l :: ls => (cur.reverse ++ l) :: ls

/-- A body whose first line has `MaxScanTokenSize` bytes and whose second line is a
valid record. -/
def longLineBody : Bytes := List.replicate 65536 65 ++ 10 :: str "ABC:1\n"

/-- A body with a valid record, a line of `MaxScanTokenSize` bytes, and another valid
record. -/
def truncatedBody : Bytes :=
  str "ABC:1" ++ 10 :: (List.replicate 65536 65 ++ 10 :: str "DEF:2\n")

/-- A body that mixes malformed lines with valid records. -/
def mixedBody : Bytes :=
  str "no colon\nA:x\n1E4C9B93F3F0682250B6CF8331B7EE68FD8:3303003\r\nq:1:2\n\nB:+7"

/-- A body made of malformed lines only. -/
def malformedBody : Bytes := str "no colon\nA:x\nq:1:2\n\n:\n"

/-- A reply whose only record has the suffix of the empty password and the count
field `-5`. -/
def negativeBody : Bytes := str "3EE5E6B4B0D3255BFEF95601890AFD80709:-5\n"

/-- The request `Check` hands to the HTTP client for a password: `GET` of the base
address followed by the prefix, with the `User-Agent` header and no body. -/
def checkRequest (c : Client) (password : Bytes) : Request :=
  { Method := str "GET", URL := c.h ++ (HashPassword password).1,
    Header := [(str "User-Agent", userAgent)], Body := none }

/-! ## Reading a hexadecimal encoding back -/

/-- The value of an uppercase hexadecimal digit, `none` for any other byte. -/
def hexDigitValue (ch : UInt8) : Option Nat :=
  if 48 ≤ ch.toNat ∧ ch.toNat ≤ 57 then some (ch.toNat - 48)
  else if 65 ≤ ch.toNat ∧ ch.toNat ≤ 70 then some (ch.toNat - 55)
  else none

/-- The bytes denoted by a string of uppercase hexadecimal digits, two digits per
byte, most significant digit first. -/
def hexDecode : Bytes → Option Bytes
  | [] => some []
  | [_] => none
  | hi :: lo :: rest =>
    match hexDigitValue hi, hexDigitValue lo, hexDecode rest with
    | some h, some l, some bs => some (UInt8.ofNat (16 * h + l) :: bs)
    | _, _, _ => none

/-! ## net/url -/

/-- Go `stringContainsCTLByte`: some byte is below 0x20 or is 0x7f. -/
def stringContainsCTLByte (s : Bytes) : Bool :=
  s.any (fun b => decide (b.toNat < 32 ∨ b.toNat = 127))

/-- Go `ishex`. -/
def ishex (c : UInt8) : Bool :=
  decide ((48 ≤ c.toNat ∧ c.toNat ≤ 57) ∨ (97 ≤ c.toNat ∧ c.toNat ≤ 102)
    ∨ (65 ≤ c.toNat ∧ c.toNat ≤ 70))

/-- The check that `unescape` makes in the modes `encodePath` and `encodeFragment`:
every `%` is followed by two hexadecimal digits. -/
def validEscapes : Bytes → Bool
  | [] => true
  | [c] => decide (c ≠ 37)
  | [c, a] => decide (c ≠ 37) && decide (a ≠ 37)
  | c :: a :: b :: rest =>
    if c = 37 then ishex a && ishex b && validEscapes rest
    else validEscapes (a :: b :: rest)

/-- Go `getScheme`: the scheme and what follows its colon, no scheme when the string
does not start with one, or an error when it starts with a colon.  `acc` holds the
bytes read so far, last byte first. -/
def getSchemeLoop (rawURL : Bytes) : Bytes → Bytes → Except Bytes (Bytes × Bytes)
  | [], _ => .ok ([], rawURL)
  | c :: rest, acc =>
    if (97 ≤ c.toNat ∧ c.toNat ≤ 122) ∨ (65 ≤ c.toNat ∧ c.toNat ≤ 90) then
      getSchemeLoop rawURL rest (c :: acc)
    else if (48 ≤ c.toNat ∧ c.toNat ≤ 57) ∨ c = 43 ∨ c = 45 ∨ c = 46 then
      if acc = [] then .ok ([], rawURL) else getSchemeLoop rawURL rest (c :: acc)
    else if c = 58 then
      if acc = [] then .error (str "missing protocol scheme") else .ok (acc.reverse, rest)
    else .ok ([], rawURL)

/-- Go `getScheme`. -/
def getScheme (rawURL : Bytes) : Except Bytes (Bytes × Bytes) := getSchemeLoop rawURL rawURL []

/-- The function `parse(rawURL, false)` of `net/url`, as to whether it returns an
error (`none` when it does not); `parseAuthority` stands for the function of that name,
which validates the part between `//` and the next `/`. -/
def parseURL (parseAuthority : Bytes → Option Bytes) (rawURL : Bytes) : Option Bytes :=
  if stringContainsCTLByte rawURL then some (str "net/url: invalid control character in URL")
  else if rawURL = str "*" then none
  else
    match getScheme rawURL with
    | .error err => some err
    | .ok (scheme, afterScheme) =>
      let rest := afterScheme.takeWhile (fun b => b ≠ 63)
      if rest.head? ≠ some 47 ∧ scheme ≠ [] then none
      else if rest.head? ≠ some 47 ∧ (58 : UInt8) ∈ rest.takeWhile (fun b => b ≠ 47) then
        some (str "first path segment in URL cannot contain colon")
      else if (str "//").isPrefixOf rest ∧ (scheme ≠ [] ∨ ¬ (str "///").isPrefixOf rest) then
        match parseAuthority ((rest.drop 2).takeWhile (fun b => b ≠ 47)) with
        | some err => some err
        | none =>
          if validEscapes ((rest.drop 2).dropWhile (fun b => b ≠ 47)) then none
          else some (str "invalid URL escape")
      else if validEscapes rest then none
      else some (str "invalid URL escape")

/-- Go `url.Parse`, as to whether it returns an error: the fragment is cut off at the
first `#`, the rest is parsed, and a fragment that is not empty is unescaped. -/
def Parse (parseAuthority : Bytes → Option Bytes) (rawURL : Bytes) : Option Bytes :=
  match parseURL parseAuthority (rawURL.takeWhile (fun b => b ≠ 35)) with
  | some err => some err
  | none =>
    if validEscapes ((rawURL.dropWhile (fun b => b ≠ 35)).drop 1) then none
    else some (str "invalid URL escape")

/-- Go `New`: a client for the API at `urlStr`, or the zero `Client` and an error when
`url.Parse` rejects `urlStr`.  `httpClient` is the behaviour of the `*http.Client` that
`New` allocates. -/
def New (env : Env) (httpClient : HTTPClient) (urlStr : Bytes) : Client × Option Error :=
  match env.urlParse urlStr with
  | some err => ({ h := [], c := none }, some (Error.parseFailed urlStr err))
  | none => ({ h := urlStr, c := some httpClient }, none)

/-- An HTTP client without a network: every request fails. -/
def offline : HTTPClient := fun _ => .error (str "dial tcp: connection refused")

/-- The body of the test server with its lines in another order and no final line
feed. -/
def permutedAPIOutput : Bytes :=
  str "6101ED511A094D1E4E515BBF8D32B266090:42\n1E4C9B93F3F0682250B6CF8331B7EE68FD8:3303003\n4D0591EEAAC5A33064731DBD53F6A819DCE:0"

/-- The lines of `longLineBody` in the other order: the valid record comes first. -/
def longLineLastBody : Bytes := str "ABC:1" ++ 10 :: (List.replicate 65536 65 ++ 10 :: [])

/-- A body in which every line feed is replaced by a carriage return and a line feed. -/
def crlf : Bytes → Bytes
  | [] => []
  | b :: rest => if b = 10 then 13 :: 10 :: crlf rest else b :: crlf rest

/-- A body without carriage return whose second line has `MaxScanTokenSize - 1` bytes. -/
def nearLimitBody : Bytes :=
  str "ABC:1" ++ 10 :: (List.replicate 65535 65 ++ 10 :: str "DEF:2\n")

/-- Whether every byte is a decimal digit. -/
def allDigits (s : Bytes) : Bool := s.all (fun ch => decide (48 ≤ ch.toNat ∧ ch.toNat ≤ 57))

/-- The number that a string of decimal digits denotes: each digit times the power of
ten of its position. -/
def decimalValue : Bytes → Nat
  | [] => 0
  | ch :: s => (ch.toNat - 48) * 10 ^ s.length + decimalValue s

/-- The integer that a count field denotes, when it denotes one: an optional sign
followed by at least one decimal digit. -/
def fieldValue (field : Bytes) : Option Int :=
  match field with
  | [] => none
  | c :: rest =>
    if c = 45 then
      if rest ≠ [] ∧ allDigits rest = true then some (-(decimalValue rest : Int)) else none
    else if c = 43 then
      if rest ≠ [] ∧ allDigits rest = true then some (decimalValue rest : Int) else none
    else if allDigits field = true then some (decimalValue field : Int)
    else none

/-- A body whose count fields are the largest `int64`, the number after it, the
smallest `int64` and the number before it. -/
def overflowBody : Bytes :=
  str "A:9223372036854775807\nB:9223372036854775808\nC:-9223372036854775808\nD:-9223372036854775809\n"

/-! ## strconv: decimal output -/

/-- The decimal digits of `u`, most significant first, in front of `acc` (the loop of
`strconv.formatBits` for base 10); `fuel` bounds the number of digits. -/
def formatBits : Nat → Nat → Bytes → Bytes
  | 0, _, acc => acc
  | fuel + 1, u, acc =>
    if u < 10 then UInt8.ofNat (48 + u) :: acc
    else formatBits fuel (u / 10) (UInt8.ofNat (48 + u % 10) :: acc)

/-- Go `strconv.FormatUint(i, 10)`. -/
def FormatUint (i : Nat) : Bytes := formatBits (i + 1) i []

/-- Go `strconv.FormatInt(i, 10)`: a minus sign for a negative number, then the digits
of its absolute value. -/
def FormatInt (i : Int) : Bytes :=
  if i < 0 then 45 :: FormatUint i.natAbs else FormatUint i.natAbs

/-! ## vendor/github.com/theckman/humanize-go/numbers.go -/

/-- The value of an `int64` expression: the result wraps around modulo `2^64`. -/
def wrapInt64 (x : Int) : Int := (x + 2 ^ 63) % 2 ^ 64 - 2 ^ 63

/-- The conversion `uint64(x)`. -/
def toUint64 (x : Int) : Nat := (x % 2 ^ 64).toNat

/-- Go `var ords`. -/
def ords : List Bytes := [str "th", str "st", str "nd", str "rd"]

/-- Go `abs`: `uint64(i * -1)` for a negative `i`, `uint64(i)` otherwise. -/
def abs (i : Int) : Nat :=
  if i < 0 then toUint64 (wrapInt64 (i * -1)) else toUint64 i

/-- Go `ordinality`; `none` stands for the panic of an index out of range. -/
def ordinality (i : Nat) : Option Bytes :=
  let v := i % 100
  if v = 11 ∨ v = 12 ∨ v = 13 then ords[0]?
  else
    let lastNum := i % 10
    if lastNum < 4 then ords[lastNum]? else ords[0]?

/-- Go `OrdinalInt64`: `fmt.Sprintf("%d%s", i, ordinality(abs(i)))`. -/
def OrdinalInt64 (i : Int) : Option Bytes :=
  (ordinality (abs i)).map (fun s => FormatInt i ++ s)

/-- Go `OrdinalInt`: `fmt.Sprintf("%d%s", i, ordinality(abs(int64(i))))`. -/
def OrdinalInt (i : Int) : Option Bytes :=
  (ordinality (abs (wrapInt64 i))).map (fun s => FormatInt i ++ s)

/-- Go `OrdinalUint64`: `fmt.Sprintf("%d%s", i, ordinality(i))`. -/
def OrdinalUint64 (i : Nat) : Option Bytes :=
  (ordinality i).map (fun s => FormatUint i ++ s)

/-- Go `OrdinalUint`: `fmt.Sprintf("%d%s", i, ordinality(uint64(i)))`. -/
def OrdinalUint (i : Nat) : Option Bytes :=
  (ordinality (toUint64 i)).map (fun s => FormatUint i ++ s)

/-- The assignment `finalValue[idx] = v`; `none` stands for the panic of an index out
of range. -/
def setByte (a : Bytes) (idx : Int) (v : UInt8) : Option Bytes :=
  if 0 ≤ idx ∧ idx < a.length then some (a.set idx.toNat v) else none

/-- The variables of the loop of `commaInt64` and `commaUint64`. -/
structure CommaState where
  finalValue : Bytes
  fvIdx : Int
  counter : Nat
deriving DecidableEq, Repr

/-- The loop `for i := (lenStr - 1); i >= 0; i--` of `commaInt64`; the first argument
is `i + 1`. -/
def commaInt64Loop (s : Bytes) : Nat → CommaState → Option CommaState
  | 0, st => some st
  | i + 1, st =>
    match s[i]? with
    | none => none
    | some digit =>
      match setByte st.finalValue st.fvIdx digit with
      | none => none
      | some fv1 =>
        if (st.counter + 1) % 3 = 0 ∧ st.fvIdx - 1 > 0 then
          match setByte fv1 (st.fvIdx - 1) 44 with
          | none => none
          | some fv2 => commaInt64Loop s i ⟨fv2, st.fvIdx - 1 - 1, st.counter + 1⟩
        else commaInt64Loop s i ⟨fv1, st.fvIdx - 1, st.counter + 1⟩

/-- Go `commaInt64`; `none` stands for a panic. -/
def commaInt64 (i : Int) : Option Bytes :=
  let isNegative : Bool := decide (i < 0)
  let s : Bytes := if isNegative then (FormatInt i).drop 1 else FormatInt i
  let lenStr : Nat := s.length
  let numCommas : Nat := (lenStr - 1) / 3
  if numCommas = 0 then
    if isNegative then some (45 :: s) else some s
  else
    match commaInt64Loop s lenStr
        ⟨List.replicate (lenStr + numCommas) 0, ((lenStr + numCommas : Nat) : Int) - 1, 0⟩ with
    | none => none
    | some st => if isNegative then some (45 :: st.finalValue) else some st.finalValue

/-- Go `CommaInt64`. -/
def CommaInt64 (i : Int) : Option Bytes := commaInt64 i

/-- Go `CommaInt`: `CommaInt64(int64(i))`. -/
def CommaInt (i : Int) : Option Bytes := CommaInt64 (wrapInt64 i)

/-- The loop `for i := (lenStr - 1); i >= 0; i--` of `commaUint64`; the first argument
is `i + 1`. -/
def commaUint64Loop (s : Bytes) : Nat → CommaState → Option CommaState
  | 0, st => some st
  | i + 1, st =>
    match s[i]? with
    | none => none
    | some digit =>
      match setByte st.finalValue st.fvIdx digit with
      | none => none
      | some fv1 =>
        if (st.counter + 1) % 3 = 0 ∧ st.fvIdx - 1 > 0 then
          match setByte fv1 (st.fvIdx - 1) 44 with
          | none => none
          | some fv2 => commaUint64Loop s i ⟨fv2, st.fvIdx - 1 - 1, st.counter + 1⟩
        else commaUint64Loop s i ⟨fv1, st.fvIdx - 1, st.counter + 1⟩

/-- Go `commaUint64`; `none` stands for a panic. -/
def commaUint64 (i : Nat) : Option Bytes :=
  let s : Bytes := FormatUint i
  let lenStr : Nat := s.length
  let numCommas : Nat := (lenStr - 1) / 3
  if numCommas = 0 then some s
  else
    match commaUint64Loop s lenStr
        ⟨List.replicate (lenStr + numCommas) 0, ((lenStr + numCommas : Nat) : Int) - 1, 0⟩ with
    | none => none
    | some st => some st.finalValue

/-- Go `CommaUint64`. -/
def CommaUint64 (i : Nat) : Option Bytes := commaUint64 i

/-- Go `CommaUint`: `CommaUint64(uint64(i))`. -/
def CommaUint (i : Nat) : Option Bytes := CommaUint64 (toUint64 i)

/-- The bytes that the loop of `commaInt64` is to write, in the order of writing, for
the digits `q` taken from the right when `c` digits were written before: each digit,
and a comma after every third digit that is not the last. -/
def groupRev : Bytes → Nat → Bytes
  | [], _ => []
  | d :: q, c =>
    if (c + 1) % 3 = 0 ∧ q ≠ [] then d :: 44 :: groupRev q (c + 1)
    else d :: groupRev q (c + 1)

/-- The English ordinal suffix of a number with absolute value `m`: "th" when `m` mod
100 is 11, 12 or 13, otherwise "st", "nd", "rd" when `m` mod 10 is 1, 2, 3, otherwise
"th". -/
def ordinalSuffix (m : Nat) : Bytes :=
  if m % 100 = 11 ∨ m % 100 = 12 ∨ m % 100 = 13 then str "th"
  else if m % 10 = 1 then str "st"
  else if m % 10 = 2 then str "nd"
  else if m % 10 = 3 then str "rd"
  else str "th"

/-- A body in which the record of the password "password" comes after a line of
`MaxScanTokenSize` bytes. -/
def hiddenMatchBody : Bytes :=
  str "ABC:1" ++ 10 :: (List.replicate 65536 65 ++ 10 ::
    str "1E4C9B93F3F0682250B6CF8331B7EE68FD8:3303003\n")

/-! ## Properties of the digest splitter -/

theorem beBytes_length (k v : Nat) : (beBytes k v).length = k := by
  induction k with
  | zero => rfl
  | succ k ih => simp [beBytes, ih]

theorem sha1Sum_length (msg : Bytes) : (sha1Sum msg).length = 20 := by
  simp [sha1Sum, beBytes_length]

theorem sprintfX_length (bs : Bytes) : (sprintfX bs).length = 2 * bs.length := by
  induction bs with
  | nil => rfl
  | cons b bs ih => simp [sprintfX, ih]; omega

theorem udigits_value : ∀ k : Fin 16,
    hexDigitValue (udigits.getD k.val 0) = some k.val := by
  decide

theorem hexDigitValue_udigits (k : Nat) (hk : k < 16) :
    hexDigitValue (udigits.getD k 0) = some k :=
  udigits_value ⟨k, hk⟩

theorem hexDigitValue_isSome {ch : UInt8} {v : Nat} (h : hexDigitValue ch = some v) :
    (48 ≤ ch.toNat ∧ ch.toNat ≤ 57) ∨ (65 ≤ ch.toNat ∧ ch.toNat ≤ 70) := by
  unfold hexDigitValue at h
  split at h
  · left; assumption
  · split at h
    · right; assumption
    · cases h

theorem byte_lt (b : UInt8) : b.toNat < 256 := b.toBitVec.isLt

theorem byte_ofNat_toNat (b : UInt8) : UInt8.ofNat (16 * (b.toNat / 16) + b.toNat % 16) = b := by
  have h : 16 * (b.toNat / 16) + b.toNat % 16 = b.toNat := Nat.div_add_mod _ _
  rw [h]
  cases b with
  | mk v => simp [UInt8.ofNat, UInt8.toNat]

theorem hexDecode_sprintfX (bs : Bytes) : hexDecode (sprintfX bs) = some bs := by
  induction bs with
  | nil => rfl
  | cons b bs ih =>
    have h1 : b.toNat / 16 < 16 := by have := byte_lt b; omega
    have h2 : b.toNat % 16 < 16 := Nat.mod_lt _ (by decide)
    simp only [sprintfX, hexDecode, hexDigitValue_udigits _ h1, hexDigitValue_udigits _ h2, ih,
      byte_ofNat_toNat]

theorem sprintfX_digits (bs : Bytes) :
    ∀ ch ∈ sprintfX bs, (48 ≤ ch.toNat ∧ ch.toNat ≤ 57) ∨ (65 ≤ ch.toNat ∧ ch.toNat ≤ 70) := by
  induction bs with
  | nil => intro ch h; cases h
  | cons b bs ih =>
    have h1 : b.toNat / 16 < 16 := by have := byte_lt b; omega
    have h2 : b.toNat % 16 < 16 := Nat.mod_lt _ (by decide)
    intro ch h
    simp only [sprintfX, List.mem_cons] at h
    rcases h with h | h | h
    · subst h; exact hexDigitValue_isSome (hexDigitValue_udigits _ h1)
    · subst h; exact hexDigitValue_isSome (hexDigitValue_udigits _ h2)
    · exact ih ch h

/-- C8: for every byte sequence, `HashPassword` returns a prefix of exactly 5 and a
suffix of exactly 35 characters, every character is one of `0-9`, `A-F`, and the
prefix followed by the suffix is the uppercase hexadecimal encoding of the SHA-1
digest of the input: it is what `%X` prints for the digest, and read back as
hexadecimal digits it gives the 20 bytes of the digest. -/
theorem HashPassword_split (password : Bytes) :
    (HashPassword password).1.length = 5 ∧ (HashPassword password).2.length = 35 ∧
    (∀ ch ∈ (HashPassword password).1 ++ (HashPassword password).2,
      (48 ≤ ch.toNat ∧ ch.toNat ≤ 57) ∨ (65 ≤ ch.toNat ∧ ch.toNat ≤ 70)) ∧
    (HashPassword password).1 ++ (HashPassword password).2 = sprintfX (sha1Sum password) ∧
    hexDecode ((HashPassword password).1 ++ (HashPassword password).2) = some (sha1Sum password) ∧
    (sha1Sum password).length = 20 := by
  have hlen : (sprintfX (sha1Sum password)).length = 40 := by
    rw [sprintfX_length, sha1Sum_length]
  have happ : (HashPassword password).1 ++ (HashPassword password).2
      = sprintfX (sha1Sum password) := by
    simp [HashPassword]
  refine ⟨?_, ?_, ?_, happ, ?_, sha1Sum_length password⟩
  · simp [HashPassword, hlen]
  · simp [HashPassword, hlen]
  · rw [happ]; exact sprintfX_digits _
  · rw [happ]; exact hexDecode_sprintfX _

set_option maxRecDepth 100000 in
/-- C9: `HashPassword` reproduces the known vectors of `TestHashPassword`: the empty
input, "password", "test word" and the UTF-8 bytes of "世界". -/
theorem HashPassword_vectors :
    HashPassword [] = (str "DA39A", str "3EE5E6B4B0D3255BFEF95601890AFD80709") ∧
    HashPassword (str "password") = (str "5BAA6", str "1E4C9B93F3F0682250B6CF8331B7EE68FD8") ∧
    HashPassword (str "test word") = (str "DBE16", str "4D0591EEAAC5A33064731DBD53F6A819DCE") ∧
    HashPassword (str "世界") = (str "CF165", str "6101ED511A094D1E4E515BBF8D32B266090") ∧
    str "世界" = [0xE4, 0xB8, 0x96, 0xE7, 0x95, 0x8C] := by
  decide

/-! ## Properties of `Check` -/

theorem readHashes_nil_iff (n : Nat) (r : Reader) :
    (readHashes n r).2 = none ↔ (readHashes n r).1 ≠ [] := by
  unfold readHashes
  by_cases h : (readHashesLoop n (scanTexts r) []).length = 0
  · simp [h]
  · simp only [h, if_false]
    simp only [List.length_eq_zero] at h
    simp [h]

theorem readHashes_fst (n : Nat) (r : Reader) :
    (readHashes n r).1 = readHashesLoop n (scanTexts r) [] := by
  unfold readHashes
  by_cases h : (readHashesLoop n (scanTexts r) []).length = 0
  · simp only [h, if_true]
    exact (List.length_eq_zero.mp h).symm
  · simp [h]

theorem readHashes_snd (n : Nat) (r : Reader) :
    (readHashes n r).2 = if (readHashes n r).1 = [] then some Error.noHashes else none := by
  unfold readHashes
  by_cases h : (readHashesLoop n (scanTexts r) []).length = 0
  · simp [h]
  · simp only [h, if_false]
    simp only [List.length_eq_zero] at h
    simp [h]

/-- What `Check` returns when the client answers its request with `resp`. -/
theorem Check_of_answer {env : Env} {c : Client} {password : Bytes} {resp : Response}
    (h : Answers env c password resp) :
    (Check env c password).ret = some
      (if resp.StatusCode ≠ 200 then
        (-1, some (Error.getHashesFailed (Error.unexpectedStatus resp.Status)))
      else if (readHashes env.intSize resp.Body).1 = [] then
        (-1, some (Error.getHashesFailed Error.noHashes))
      else checkLoop (readHashes env.intSize resp.Body).1 (HashPassword password).2) := by
  obtain ⟨req, client, hreq, hc, hresp⟩ := h
  by_cases hs : resp.StatusCode ≠ 200
  · simp [Check, getHashes, hreq, hc, hresp, hs]
  · by_cases he : (readHashes env.intSize resp.Body).1 = []
    · have h2 := readHashes_snd env.intSize resp.Body
      rw [if_pos he] at h2
      have h3 : readHashes env.intSize resp.Body = ([], some Error.noHashes) :=
        Prod.ext he h2
      simp [Check, getHashes, hreq, hc, hresp, hs, h3]
    · have h2 := readHashes_snd env.intSize resp.Body
      rw [if_neg he] at h2
      have h3 : readHashes env.intSize resp.Body
          = ((readHashes env.intSize resp.Body).1, none) := Prod.ext rfl h2
      simp only [Check, getHashes, hreq, hc, hresp, hs, if_false, he]
      rw [h3]

theorem checkLoop_first (pre : List hashCount) (h : hashCount) (post : List hashCount)
    (suffix : Bytes) (hpre : ∀ x ∈ pre, x.suffix ≠ suffix) (hh : h.suffix = suffix) :
    checkLoop (pre ++ h :: post) suffix = (h.count, none) := by
  induction pre with
  | nil => simp [checkLoop, hh]
  | cons x pre ih =>
    have hx : x.suffix ≠ suffix := hpre x (List.mem_cons_self _ _)
    simp only [List.cons_append, checkLoop, hx, if_false]
    exact ih (fun y hy => hpre y (List.mem_cons_of_mem _ hy))

theorem checkLoop_none (hashes : List hashCount) (suffix : Bytes)
    (hno : ∀ x ∈ hashes, x.suffix ≠ suffix) : checkLoop hashes suffix = (0, none) := by
  induction hashes with
  | nil => rfl
  | cons x rest ih =>
    have hx : x.suffix ≠ suffix := hno x (List.mem_cons_self _ _)
    simp only [checkLoop, hx, if_false]
    exact ih (fun y hy => hno y (List.mem_cons_of_mem _ hy))

/-- Either no record has the suffix, or the records split at the first one that has it. -/
theorem checkLoop_cases (hashes : List hashCount) (suffix : Bytes) :
    (∀ x ∈ hashes, x.suffix ≠ suffix) ∨
    ∃ pre h post, hashes = pre ++ h :: post ∧ (∀ x ∈ pre, x.suffix ≠ suffix) ∧
      h.suffix = suffix := by
  induction hashes with
  | nil => left; intro x hx; cases hx
  | cons x rest ih =>
    by_cases hx : x.suffix = suffix
    · right; exact ⟨[], x, rest, rfl, fun y hy => (by cases hy), hx⟩
    · rcases ih with ih | ⟨pre, h, post, he, hpre, hh⟩
      · left
        intro y hy
        rcases List.mem_cons.mp hy with rfl | hy
        · exact hx
        · exact ih y hy
      · right
        refine ⟨x :: pre, h, post, by simp [he], ?_, hh⟩
        intro y hy
        rcases List.mem_cons.mp hy with rfl | hy
        · exact hx
        · exact hpre y hy

theorem Answers_clientServing (status : Bytes) (code : Int) (body password : Bytes) :
    Answers env64 (clientServing status code body) password
      { Status := status, StatusCode := code, Body := ⟨body, false⟩ } :=
  ⟨_, _, rfl, rfl, rfl⟩

/-- C1: when the reply has status 200 and at least one parsed record has the suffix
computed by `HashPassword`, `Check` returns a nil error and the count of the first
such record in body order, whatever the records after it are. -/
theorem Check_first_match (env : Env) (c : Client) (password : Bytes) (resp : Response)
    (hans : Answers env c password resp) (h200 : resp.StatusCode = 200)
    (hsome : ∃ x ∈ (readHashes env.intSize resp.Body).1, x.suffix = (HashPassword password).2) :
    ∃ pre h post, (readHashes env.intSize resp.Body).1 = pre ++ h :: post ∧
      (∀ x ∈ pre, x.suffix ≠ (HashPassword password).2) ∧
      h.suffix = (HashPassword password).2 ∧
      (Check env c password).ret = some (h.count, none) := by
  obtain ⟨x, hx, hxs⟩ := hsome
  rcases checkLoop_cases (readHashes env.intSize resp.Body).1 (HashPassword password).2
    with hno | ⟨pre, h, post, hrec, hpre, hh⟩
  · exact absurd hxs (hno x hx)
  · refine ⟨pre, h, post, hrec, hpre, hh, ?_⟩
    rw [Check_of_answer hans]
    have hne : (readHashes env.intSize resp.Body).1 ≠ [] := by rw [hrec]; simp
    simp only [h200, ne_eq, not_true_eq_false, if_false, hne]
    rw [hrec, checkLoop_first pre h post _ hpre hh]

set_option maxRecDepth 100000 in
theorem Check_first_match_witness :
    (readHashes 64 ⟨duplicateBody, false⟩).1
      = [⟨str "4D0591EEAAC5A33064731DBD53F6A819DCE", 0⟩,
         ⟨str "1E4C9B93F3F0682250B6CF8331B7EE68FD8", 3303003⟩,
         ⟨str "1E4C9B93F3F0682250B6CF8331B7EE68FD8", 7⟩] ∧
    (Check env64 (clientServing (str "200 OK") 200 duplicateBody) (str "password")).ret
      = some (3303003, none) ∧
    ∃ pre h post, (readHashes 64 ⟨duplicateBody, false⟩).1 = pre ++ h :: post ∧
      (∀ x ∈ pre, x.suffix ≠ (HashPassword (str "password")).2) ∧
      h.suffix = (HashPassword (str "password")).2 ∧
      (Check env64 (clientServing (str "200 OK") 200 duplicateBody) (str "password")).ret
        = some (h.count, none) :=
  ⟨by decide, by decide,
   Check_first_match env64 (clientServing (str "200 OK") 200 duplicateBody) (str "password")
    { Status := str "200 OK", StatusCode := 200, Body := ⟨duplicateBody, false⟩ }
    (Answers_clientServing _ _ _ _) rfl (by decide)⟩

/-- C2: when the reply has status 200 and yields at least one valid record, and no
parsed record has the suffix computed by `HashPassword`, `Check` returns count 0
with a nil error. -/
theorem Check_no_match (env : Env) (c : Client) (password : Bytes) (resp : Response)
    (hans : Answers env c password resp) (h200 : resp.StatusCode = 200)
    (hvalid : (readHashes env.intSize resp.Body).1 ≠ [])
    (hno : ∀ x ∈ (readHashes env.intSize resp.Body).1, x.suffix ≠ (HashPassword password).2) :
    (Check env c password).ret = some (0, none) := by
  rw [Check_of_answer hans]
  simp only [h200, ne_eq, not_true_eq_false, if_false, hvalid]
  rw [checkLoop_none _ _ hno]

set_option maxRecDepth 100000 in
theorem Check_no_match_witness :
    (readHashes 64 ⟨testAPIOutput, false⟩).1 ≠ [] ∧
    (Check env64 (clientServing (str "200 OK") 200 testAPIOutput) []).ret = some (0, none) :=
  ⟨by decide,
   Check_no_match env64 (clientServing (str "200 OK") 200 testAPIOutput) []
    { Status := str "200 OK", StatusCode := 200, Body := ⟨testAPIOutput, false⟩ }
    (Answers_clientServing _ _ _ _) rfl (by decide) (by decide)⟩

/-- C5: when the status code of the reply is not 200, whatever its body, `Check`
returns count -1 and the error "failed to get hashes: unexpected http status code:"
followed by the status text of the reply. -/
theorem Check_unexpected_status (env : Env) (c : Client) (password : Bytes) (resp : Response)
    (hans : Answers env c password resp) (hcode : resp.StatusCode ≠ 200) :
    (Check env c password).ret
      = some (-1, some (Error.getHashesFailed (Error.unexpectedStatus resp.Status))) := by
  rw [Check_of_answer hans]
  simp [hcode]

set_option maxRecDepth 100000 in
theorem Check_unexpected_status_witness :
    (∃ x ∈ (readHashes 64 ⟨testAPIOutput, false⟩).1,
      x.suffix = (HashPassword (str "password")).2) ∧
    (Check env64 (clientServing (str "404 Not Found") 404 testAPIOutput) (str "password")).ret
      = some (-1, some (Error.getHashesFailed (Error.unexpectedStatus (str "404 Not Found")))) :=
  ⟨by decide,
   Check_unexpected_status env64 (clientServing (str "404 Not Found") 404 testAPIOutput)
    (str "password")
    { Status := str "404 Not Found", StatusCode := 404, Body := ⟨testAPIOutput, false⟩ }
    (Answers_clientServing _ _ _ _) (by decide)⟩

theorem checkLoop_zero {hashes : List hashCount} {suffix : Bytes}
    (h : checkLoop hashes suffix = (0, none)) :
    (∀ x ∈ hashes, x.suffix ≠ suffix) ∨
    ∃ pre r post, hashes = pre ++ r :: post ∧ (∀ x ∈ pre, x.suffix ≠ suffix) ∧
      r.suffix = suffix ∧ r.count = 0 := by
  rcases checkLoop_cases hashes suffix with hno | ⟨pre, r, post, he, hpre, hr⟩
  · exact Or.inl hno
  · right
    refine ⟨pre, r, post, he, hpre, hr, ?_⟩
    rw [he, checkLoop_first pre r post suffix hpre hr] at h
    exact (Prod.mk.inj h).1

/-- What `Check` returns in terms of the reply, when it returns at all. -/
theorem Check_ret_cases {env : Env} {c : Client} {password : Bytes} {out : Int × Option Error}
    (h : (Check env c password).ret = some out) :
    (∃ e, out = (-1, some (Error.getHashesFailed e))) ∨
    ∃ resp, Answers env c password resp ∧ resp.StatusCode = 200 ∧
      (readHashes env.intSize resp.Body).1 ≠ [] ∧
      out = checkLoop (readHashes env.intSize resp.Body).1 (HashPassword password).2 := by
  cases hreq : getHashesRequest env c (HashPassword password).1 with
  | error err =>
    left
    simp only [Check, getHashes, hreq] at h
    exact ⟨_, (Option.some.inj h).symm⟩
  | ok req =>
    cases hc : c.c with
    | none => simp [Check, getHashes, hreq, hc] at h
    | some client =>
      cases hresp : client req with
      | error err =>
        left
        simp only [Check, getHashes, hreq, hc, hresp] at h
        exact ⟨_, (Option.some.inj h).symm⟩
      | ok resp =>
        have hans : Answers env c password resp := ⟨req, client, hreq, hc, hresp⟩
        rw [Check_of_answer hans] at h
        have h := (Option.some.inj h).symm
        by_cases hs : resp.StatusCode ≠ 200
        · left; rw [if_pos hs] at h; exact ⟨_, h⟩
        · rw [if_neg hs] at h
          by_cases he : (readHashes env.intSize resp.Body).1 = []
          · left; rw [if_pos he] at h; exact ⟨_, h⟩
          · right; rw [if_neg he] at h
            exact ⟨resp, hans, not_not.mp hs, he, h⟩

set_option maxRecDepth 100000 in
/-- C3 fails as stated: against the reply of the test server, whose second record is
the suffix of "test word" with count 0, `Check` returns count 0 with a nil error for
the password "test word" although a parsed record of the reply has its suffix. -/
theorem Check_zero_with_match :
    (Check env64 (clientServing (str "200 OK") 200 testAPIOutput) (str "test word")).ret
      = some (0, none) ∧
    Answers env64 (clientServing (str "200 OK") 200 testAPIOutput) (str "test word")
      { Status := str "200 OK", StatusCode := 200, Body := ⟨testAPIOutput, false⟩ } ∧
    ∃ x ∈ (readHashes 64 ⟨testAPIOutput, false⟩).1,
      x.suffix = (HashPassword (str "test word")).2 :=
  ⟨by decide, Answers_clientServing _ _ _ _, by decide⟩

/-! ## Properties of `readHashes` -/

theorem readHashesLoop_eq (n : Nat) (texts : List Bytes) (acc : List hashCount) :
    readHashesLoop n texts acc = acc ++ texts.filterMap (lineRecord n) := by
  induction texts generalizing acc with
  | nil => simp [readHashesLoop]
  | cons text rest ih =>
    unfold readHashesLoop
    rcases hs : Split text 58 with _ | ⟨a, _ | ⟨b, _ | ⟨c, t⟩⟩⟩
    · simp [lineRecord, hs, ih]
    · simp [lineRecord, hs, ih]
    · cases ha : Atoi n b with
      | none => simp [lineRecord, hs, ha, ih]
      | some i => simp [lineRecord, hs, ha, ih]
    · simp [lineRecord, hs, ih]

theorem readHashes_eq (n : Nat) (r : Reader) :
    (readHashes n r).1 = (scanTexts r).filterMap (lineRecord n) := by
  rw [readHashes_fst, readHashesLoop_eq]; rfl

theorem continueLine_nil (ls : List Bytes) : continueLine [] ls = ls := by
  cases ls <;> simp [continueLine]

theorem continueLine_cons (b : UInt8) (hb : b ≠ 10) (cur rest : Bytes) :
    continueLine cur (bodyLines (b :: rest)) = continueLine (b :: cur) (bodyLines rest) := by
  simp only [bodyLines, hb, if_false]
  cases bodyLines rest <;> simp [continueLine]

/-- The scanner yields an initial part of the lines of the body. -/
theorem scanLoop_prefix (e : Bool) (body cur : Bytes) :
    scanLoop e body cur <+: (continueLine cur (bodyLines body)).map dropCR := by
  induction body generalizing cur with
  | nil =>
    simp only [scanLoop, bodyLines, continueLine]
    by_cases hc : cur = []
    · simp [hc]
    · simp only [hc, if_false]
      split
      · simp
      · simp
  | cons b rest ih =>
    by_cases hb : b = 10
    · simp only [scanLoop, hb, if_true, bodyLines, continueLine, List.append_nil, List.map_cons]
      split
      · have := ih []
        rw [continueLine_nil] at this
        exact (List.prefix_cons_inj _).mpr this
      · exact List.nil_prefix
    · rw [continueLine_cons b hb]
      simp only [scanLoop, hb, if_false]
      exact ih (b :: cur)

/-- When no line reaches `MaxScanTokenSize` bytes the scanner yields every line. -/
theorem scanLoop_short (e : Bool) (body cur : Bytes)
    (h : ∀ l ∈ continueLine cur (bodyLines body), l.length < MaxScanTokenSize) :
    scanLoop e body cur = (continueLine cur (bodyLines body)).map dropCR := by
  induction body generalizing cur with
  | nil =>
    simp only [scanLoop, bodyLines, continueLine]
    by_cases hc : cur = []
    · simp [hc]
    · have hl : cur.length < MaxScanTokenSize := by
        have := h cur.reverse (by simp [bodyLines, continueLine, hc])
        simpa using this
      simp [hc, hl]
  | cons b rest ih =>
    by_cases hb : b = 10
    · have hl : cur.length < MaxScanTokenSize := by
        have := h cur.reverse (by simp [bodyLines, continueLine, hb])
        simpa using this
      have hrest : ∀ l ∈ continueLine [] (bodyLines rest), l.length < MaxScanTokenSize := by
        intro l hl
        rw [continueLine_nil] at hl
        exact h l (by simp [bodyLines, continueLine, hb, hl])
      simp only [scanLoop, hb, if_true, hl, bodyLines, continueLine, List.append_nil,
        List.map_cons]
      rw [ih [] hrest, continueLine_nil]
    · rw [continueLine_cons b hb] at h ⊢
      simp only [scanLoop, hb, if_false]
      exact ih (b :: cur) h

theorem scanTexts_short (e : Bool) (body : Bytes)
    (h : ∀ l ∈ bodyLines body, l.length < MaxScanTokenSize) :
    scanTexts ⟨body, e⟩ = (bodyLines body).map dropCR := by
  have := scanLoop_short e body [] (by rw [continueLine_nil]; exact h)
  rw [continueLine_nil] at this
  exact this

theorem readHashes_short (n : Nat) (e : Bool) (body : Bytes)
    (h : ∀ l ∈ bodyLines body, l.length < MaxScanTokenSize) :
    (readHashes n ⟨body, e⟩).1 = filterPass n body := by
  rw [readHashes_eq, scanTexts_short e body h, filterPass, List.filterMap_map]
  rfl

/-- Every record of `readHashes` is the record of a line of the body. -/
theorem readHashes_sub (n : Nat) (e : Bool) (body : Bytes) :
    ∀ x ∈ (readHashes n ⟨body, e⟩).1, x ∈ filterPass n body := by
  intro x hx
  rw [readHashes_eq] at hx
  have hp := scanLoop_prefix e body []
  rw [continueLine_nil] at hp
  obtain ⟨t, ht⟩ := hp
  have : x ∈ ((bodyLines body).map dropCR).filterMap (lineRecord n) := by
    rw [← ht, List.filterMap_append]
    exact List.mem_append_left _ hx
  rw [List.filterMap_map] at this
  exact this

theorem scanLoop_line (e : Bool) (l rest cur : Bytes) (hl : (10 : UInt8) ∉ l) :
    scanLoop e (l ++ 10 :: rest) cur
      = if cur.length + l.length < MaxScanTokenSize
        then dropCR (cur.reverse ++ l) :: scanLoop e rest [] else [] := by
  induction l generalizing cur with
  | nil => simp [scanLoop]
  | cons b l ih =>
    have hb : b ≠ 10 := fun h => hl (h ▸ List.mem_cons_self _ _)
    have hl2 : (10 : UInt8) ∉ l := fun h => hl (List.mem_cons_of_mem _ h)
    have hstep : scanLoop e (b :: (l ++ 10 :: rest)) cur
        = scanLoop e (l ++ 10 :: rest) (b :: cur) := by
      simp only [scanLoop, hb, if_false]
    rw [List.cons_append, hstep, ih (b :: cur) hl2]
    simp only [List.length_cons, List.reverse_cons, List.append_assoc, List.singleton_append]
    have : cur.length + 1 + l.length = cur.length + (l.length + 1) := by omega
    rw [this]

theorem bodyLines_line (l rest : Bytes) (hl : (10 : UInt8) ∉ l) :
    bodyLines (l ++ 10 :: rest) = l :: bodyLines rest := by
  induction l with
  | nil => simp [bodyLines]
  | cons b l ih =>
    have hb : b ≠ 10 := fun h => hl (h ▸ List.mem_cons_self _ _)
    have hl2 : (10 : UInt8) ∉ l := fun h => hl (List.mem_cons_of_mem _ h)
    have hstep : bodyLines (b :: (l ++ 10 :: rest))
        = (match bodyLines (l ++ 10 :: rest) with
          | [] => [[b]]
          | l :: ls => (b :: l) :: ls) := by
      simp only [bodyLines, hb, if_false]
    rw [List.cons_append, hstep, ih hl2]

theorem Split_no_sep (l : Bytes) (sep : UInt8) (h : sep ∉ l) : Split l sep = [l] := by
  induction l with
  | nil => rfl
  | cons b l ih =>
    have hb : b ≠ sep := fun hb => h (hb ▸ List.mem_cons_self _ _)
    have hl : sep ∉ l := fun hl => h (List.mem_cons_of_mem _ hl)
    simp only [Split, hb, if_false, ih hl]

theorem lineRecord_no_colon (n : Nat) (l : Bytes) (h : (58 : UInt8) ∉ l) :
    lineRecord n (dropCR l) = none := by
  have h2 : (58 : UInt8) ∉ dropCR l := by
    unfold dropCR
    split
    · exact fun hm => h (List.mem_of_mem_dropLast hm)
    · exact h
  simp [lineRecord, Split_no_sep _ _ h2]

theorem longLine_no_lf : (10 : UInt8) ∉ List.replicate 65536 (65 : UInt8) :=
  fun h => absurd (List.eq_of_mem_replicate h) (by decide)

theorem longLine_no_colon : (58 : UInt8) ∉ List.replicate 65536 (65 : UInt8) :=
  fun h => absurd (List.eq_of_mem_replicate h) (by decide)

theorem longLine_too_long (k : Nat) :
    ¬ (k + (List.replicate 65536 (65 : UInt8)).length < MaxScanTokenSize) := by
  rw [List.length_replicate]
  unfold MaxScanTokenSize
  omega

/-- C4, as amended: `readHashes` returns no records whenever it returns an error; it
returns the error "no hashes in response" whenever no line of the body is a valid
record, and, for a body whose lines are all shorter than `MaxScanTokenSize` bytes,
only then; consequently, for a reply of status 200 whose body is empty or consists
only of malformed lines, `Check` returns count -1 with a non-nil error. -/
theorem readHashes_error_iff (n : Nat) (r : Reader) :
    ((readHashes n r).2 ≠ none → (readHashes n r).1 = []) ∧
    ((∀ l ∈ bodyLines r.data, lineRecord n (dropCR l) = none) →
      readHashes n r = ([], some Error.noHashes)) ∧
    ((∀ l ∈ bodyLines r.data, l.length < MaxScanTokenSize) →
      (readHashes n r).2 ≠ none → ∀ l ∈ bodyLines r.data, lineRecord n (dropCR l) = none) ∧
    (∀ env c password resp, Answers env c password resp → resp.StatusCode = 200 →
      resp.Body = r → env.intSize = n →
      (∀ l ∈ bodyLines r.data, lineRecord n (dropCR l) = none) →
      (Check env c password).ret = some (-1, some (Error.getHashesFailed Error.noHashes))) := by
  have hnone : (∀ l ∈ bodyLines r.data, lineRecord n (dropCR l) = none) →
      (readHashes n r).1 = [] := by
    intro h
    cases hr : (readHashes n r).1 with
    | nil => rfl
    | cons x xs =>
      have hx : x ∈ filterPass n r.data := by
        apply readHashes_sub n r.eofWithData r.data
        show x ∈ (readHashes n r).1
        rw [hr]; exact List.mem_cons_self _ _
      obtain ⟨l, hl, hlx⟩ := List.mem_filterMap.mp hx
      rw [h l hl] at hlx
      cases hlx
  refine ⟨?_, ?_, ?_, ?_⟩
  · intro h
    by_contra hne
    exact h ((readHashes_nil_iff n r).mpr hne)
  · intro h
    have h1 := hnone h
    have h2 := readHashes_snd n r
    rw [if_pos h1] at h2
    exact Prod.ext h1 h2
  · intro hshort herr l hl
    have h1 : (readHashes n r).1 = [] := by
      by_contra hne
      exact herr ((readHashes_nil_iff n r).mpr hne)
    have h2 : filterPass n r.data = [] := by
      rw [← readHashes_short n r.eofWithData r.data hshort]
      exact h1
    cases hrec : lineRecord n (dropCR l) with
    | none => rfl
    | some x =>
      have : x ∈ filterPass n r.data := List.mem_filterMap.mpr ⟨l, hl, hrec⟩
      rw [h2] at this
      cases this
  · intro env c password resp hans h200 hbody hn h
    rw [Check_of_answer hans]
    subst hbody hn
    simp [h200, hnone h]

set_option maxRecDepth 100000 in
theorem readHashes_error_iff_witness :
    (∀ l ∈ bodyLines malformedBody, lineRecord 64 (dropCR l) = none) ∧
    (∀ l ∈ bodyLines malformedBody, l.length < MaxScanTokenSize) ∧
    readHashes 64 ⟨malformedBody, false⟩ = ([], some Error.noHashes) ∧
    (Check env64 (clientServing (str "200 OK") 200 malformedBody) (str "password")).ret
      = some (-1, some (Error.getHashesFailed Error.noHashes)) ∧
    (Check env64 (clientServing (str "200 OK") 200 []) (str "password")).ret
      = some (-1, some (Error.getHashesFailed Error.noHashes)) :=
  ⟨by decide, by decide,
   (readHashes_error_iff 64 ⟨malformedBody, false⟩).2.1 (by decide),
   (readHashes_error_iff 64 ⟨malformedBody, false⟩).2.2.2 env64 _ (str "password") _
     (Answers_clientServing _ _ _ _) rfl rfl rfl (by decide),
   (readHashes_error_iff 64 ⟨[], false⟩).2.2.2 env64 _ (str "password") _
     (Answers_clientServing _ _ _ _) rfl rfl rfl (by decide)⟩

theorem longLineBody_error (e : Bool) :
    readHashes 64 ⟨longLineBody, e⟩ = ([], some Error.noHashes) := by
  have hs : scanTexts ⟨longLineBody, e⟩ = [] := by
    unfold scanTexts longLineBody
    show scanLoop e _ [] = []
    rw [scanLoop_line e _ _ [] longLine_no_lf, if_neg (longLine_too_long _)]
  have h1 : (readHashes 64 ⟨longLineBody, e⟩).1 = [] := by
    rw [readHashes_eq, hs]; rfl
  have h2 := readHashes_snd 64 ⟨longLineBody, e⟩
  rw [if_pos h1] at h2
  exact Prod.ext h1 h2

theorem longLineBody_lines :
    bodyLines longLineBody = [List.replicate 65536 65, str "ABC:1"] := by
  have e4 : bodyLines (str "ABC:1\n") = [str "ABC:1"] := by decide
  unfold longLineBody
  rw [bodyLines_line _ _ longLine_no_lf, e4]

/-- C4 fails as stated: the second line of `longLineBody` is a valid record, yet
`readHashes` returns the error "no hashes in response", because the scanner stops at
the first line, which has `MaxScanTokenSize` bytes. -/
theorem readHashes_longLine :
    (∃ l ∈ bodyLines longLineBody, lineRecord 64 (dropCR l) = some ⟨str "ABC", 1⟩) ∧
    readHashes 64 ⟨longLineBody, false⟩ = ([], some Error.noHashes) ∧
    readHashes 64 ⟨longLineBody, true⟩ = ([], some Error.noHashes) := by
  refine ⟨⟨str "ABC:1", ?_, by decide⟩, longLineBody_error false, longLineBody_error true⟩
  rw [longLineBody_lines]
  exact List.mem_cons_of_mem _ (List.mem_singleton.mpr rfl)

/-- C6, as amended: for every body with at least one valid line and in which every
line is shorter than `MaxScanTokenSize` bytes, `readHashes` returns, with a nil error,
exactly the list obtained by the filtering pass over the lines of the body in
encounter order. -/
theorem readHashes_filterPass (n : Nat) (body : Bytes) (e : Bool)
    (hshort : ∀ l ∈ bodyLines body, l.length < MaxScanTokenSize)
    (hvalid : filterPass n body ≠ []) :
    readHashes n ⟨body, e⟩ = (filterPass n body, none) := by
  have h1 := readHashes_short n e body hshort
  have h2 := readHashes_snd n ⟨body, e⟩
  rw [h1, if_neg hvalid] at h2
  exact Prod.ext h1 h2

set_option maxRecDepth 100000 in
theorem readHashes_filterPass_witness :
    filterPass 64 mixedBody
      = [⟨str "1E4C9B93F3F0682250B6CF8331B7EE68FD8", 3303003⟩, ⟨str "B", 7⟩] ∧
    readHashes 64 ⟨mixedBody, false⟩ = (filterPass 64 mixedBody, none) :=
  ⟨by decide, readHashes_filterPass 64 mixedBody false (by decide) (by decide)⟩

theorem truncatedBody_lines :
    bodyLines truncatedBody = [str "ABC:1", List.replicate 65536 65, str "DEF:2"] := by
  have e4 : bodyLines (str "DEF:2\n") = [str "DEF:2"] := by decide
  have e5 : (10 : UInt8) ∉ str "ABC:1" := by decide
  unfold truncatedBody
  rw [bodyLines_line _ _ e5, bodyLines_line _ _ longLine_no_lf, e4]

theorem truncatedBody_texts (e : Bool) :
    scanTexts ⟨truncatedBody, e⟩ = [dropCR (str "ABC:1")] := by
  have e5 : (10 : UInt8) ∉ str "ABC:1" := by decide
  have e6 : ([] : Bytes).length + (str "ABC:1").length < MaxScanTokenSize := by decide
  unfold scanTexts truncatedBody
  show scanLoop e _ [] = _
  rw [scanLoop_line e _ _ [] e5, if_pos e6,
    scanLoop_line e _ _ [] longLine_no_lf, if_neg (longLine_too_long _)]
  rfl

theorem truncatedBody_records (e : Bool) :
    readHashes 64 ⟨truncatedBody, e⟩ = ([⟨str "ABC", 1⟩], none) := by
  have e1 : lineRecord 64 (dropCR (str "ABC:1")) = some ⟨str "ABC", 1⟩ := by decide
  have h1 : (readHashes 64 ⟨truncatedBody, e⟩).1 = [⟨str "ABC", 1⟩] := by
    rw [readHashes_eq, truncatedBody_texts, List.filterMap_cons_some e1, List.filterMap_nil]
  have h2 := readHashes_snd 64 ⟨truncatedBody, e⟩
  rw [h1, if_neg (by simp)] at h2
  exact Prod.ext h1 h2

/-- C6 fails as stated: `truncatedBody` has the valid lines `ABC:1` and `DEF:2`, so
the filtering pass gives two records, but `readHashes` returns only the first, with a
nil error: the line of `MaxScanTokenSize` bytes between them ends the scan. -/
theorem readHashes_truncated :
    filterPass 64 truncatedBody = [⟨str "ABC", 1⟩, ⟨str "DEF", 2⟩] ∧
    readHashes 64 ⟨truncatedBody, false⟩ = ([⟨str "ABC", 1⟩], none) ∧
    readHashes 64 ⟨truncatedBody, true⟩ = ([⟨str "ABC", 1⟩], none) := by
  have e1 : lineRecord 64 (dropCR (str "ABC:1")) = some ⟨str "ABC", 1⟩ := by decide
  have e2 := lineRecord_no_colon 64 _ longLine_no_colon
  have e3 : lineRecord 64 (dropCR (str "DEF:2")) = some ⟨str "DEF", 2⟩ := by decide
  refine ⟨?_, truncatedBody_records false, truncatedBody_records true⟩
  unfold filterPass
  rw [truncatedBody_lines,
    List.filterMap_cons_some (f := fun l => lineRecord 64 (dropCR l)) e1,
    List.filterMap_cons_none (f := fun l => lineRecord 64 (dropCR l)) e2,
    List.filterMap_cons_some (f := fun l => lineRecord 64 (dropCR l)) e3,
    List.filterMap_nil]

theorem Atoi_range {n : Nat} {s : Bytes} {v : Int} (h : Atoi n s = some v) :
    -(2 ^ (n - 1) : Int) ≤ v ∧ v < 2 ^ (n - 1) := by
  have hpos : (0 : Int) < 2 ^ (n - 1) := by positivity
  cases s with
  | nil => simp [Atoi] at h
  | cons c rest =>
    simp only [Atoi] at h
    by_cases hd : (if c = 45 ∨ c = 43 then rest else c :: rest) = []
    · rw [if_pos hd] at h; cases h
    · rw [if_neg hd] at h
      cases hk : digitsValue (if c = 45 ∨ c = 43 then rest else c :: rest) 0 with
      | none => rw [hk] at h; cases h
      | some k =>
        rw [hk] at h
        simp only at h
        by_cases hneg : decide (c = 45) = true
        · rw [if_pos hneg] at h
          by_cases hle : k ≤ 2 ^ (n - 1)
          · rw [if_pos hle] at h
            have hv := Option.some.inj h
            have : (k : Int) ≤ 2 ^ (n - 1) := by exact_mod_cast hle
            omega
          · rw [if_neg hle] at h; cases h
        · rw [if_neg hneg] at h
          by_cases hlt : k < 2 ^ (n - 1)
          · rw [if_pos hlt] at h
            have hv := Option.some.inj h
            have : (k : Int) < 2 ^ (n - 1) := by exact_mod_cast hlt
            omega
          · rw [if_neg hlt] at h; cases h

theorem lineRecord_some {n : Nat} {line : Bytes} {x : hashCount}
    (h : lineRecord n line = some x) :
    ∃ field, Split line 58 = [x.suffix, field] ∧ Atoi n field = some x.count := by
  unfold lineRecord at h
  split at h
  · rename_i f1 f2 hs
    split at h
    · rename_i i hi
      have hx := Option.some.inj h
      subst hx
      exact ⟨f2, hs, hi⟩
    · cases h
  · cases h

theorem checkLoop_mem {hashes : List hashCount} {suffix : Bytes} {k : Int} {err : Option Error}
    (h : checkLoop hashes suffix = (k, err)) :
    err = none ∧ (k = 0 ∨ ∃ x ∈ hashes, x.suffix = suffix ∧ x.count = k) := by
  rcases checkLoop_cases hashes suffix with hno | ⟨pre, r, post, he, hpre, hr⟩
  · rw [checkLoop_none _ _ hno] at h
    have := Prod.mk.inj h
    exact ⟨this.2.symm, Or.inl this.1.symm⟩
  · rw [he, checkLoop_first pre r post suffix hpre hr] at h
    have := Prod.mk.inj h
    exact ⟨this.2.symm, Or.inr ⟨r, by rw [he]; simp, hr, this.1⟩⟩

/-- C7, as amended: every record returned by `readHashes` has as its count the
integer that `strconv.Atoi` reads from the second of the two fields of a scanned
line, an integer of the range of `int` that may be negative; so whenever `Check`
returns a nil error its count lies in that range, from `-2^(intSize-1)` to
`2^(intSize-1) - 1`, and is 0 or the count of a parsed record with the suffix of the
password. -/
theorem readHashes_count_range (n : Nat) (r : Reader) :
    (∀ x ∈ (readHashes n r).1,
      (∃ line ∈ scanTexts r, ∃ field,
        Split line 58 = [x.suffix, field] ∧ Atoi n field = some x.count) ∧
      -(2 ^ (n - 1) : Int) ≤ x.count ∧ x.count < 2 ^ (n - 1)) ∧
    (∀ env c password resp k, Answers env c password resp → resp.Body = r →
      env.intSize = n → (Check env c password).ret = some (k, none) →
      -(2 ^ (n - 1) : Int) ≤ k ∧ k < 2 ^ (n - 1) ∧
      (k = 0 ∨ ∃ x ∈ (readHashes n r).1, x.suffix = (HashPassword password).2 ∧ x.count = k)) := by
  have hrec : ∀ x ∈ (readHashes n r).1,
      (∃ line ∈ scanTexts r, ∃ field,
        Split line 58 = [x.suffix, field] ∧ Atoi n field = some x.count) ∧
      -(2 ^ (n - 1) : Int) ≤ x.count ∧ x.count < 2 ^ (n - 1) := by
    intro x hx
    rw [readHashes_eq] at hx
    obtain ⟨line, hline, hl⟩ := List.mem_filterMap.mp hx
    obtain ⟨field, hs, ha⟩ := lineRecord_some hl
    exact ⟨⟨line, hline, field, hs, ha⟩, Atoi_range ha⟩
  refine ⟨hrec, ?_⟩
  intro env c password resp k hans hbody hn hret
  have hpos : (0 : Int) < 2 ^ (n - 1) := by positivity
  rw [Check_of_answer hans] at hret
  subst hbody hn
  have hret := Option.some.inj hret
  by_cases hs : resp.StatusCode ≠ 200
  · rw [if_pos hs] at hret; cases hret
  · rw [if_neg hs] at hret
    by_cases he : (readHashes env.intSize resp.Body).1 = []
    · rw [if_pos he] at hret; cases hret
    · rw [if_neg he] at hret
      obtain ⟨_, hk⟩ := checkLoop_mem hret
      rcases hk with hk | ⟨x, hx, hsx, hcx⟩
      · subst hk
        exact ⟨by omega, hpos, Or.inl rfl⟩
      · have := (hrec x hx).2
        rw [hcx] at this
        exact ⟨this.1, this.2, Or.inr ⟨x, hx, hsx, hcx⟩⟩

set_option maxRecDepth 100000 in
theorem readHashes_count_range_witness :
    (Check env64 (clientServing (str "200 OK") 200 negativeBody) []).ret = some (-5, none) ∧
    -(2 ^ (64 - 1) : Int) ≤ -5 ∧ (-5 : Int) < 2 ^ (64 - 1) ∧
    ((-5 : Int) = 0 ∨ ∃ x ∈ (readHashes 64 ⟨negativeBody, false⟩).1,
      x.suffix = (HashPassword []).2 ∧ x.count = -5) :=
  ⟨by decide,
   (readHashes_count_range 64 ⟨negativeBody, false⟩).2 env64
     (clientServing (str "200 OK") 200 negativeBody) [] _ (-5)
     (Answers_clientServing _ _ _ _) rfl rfl (by decide)⟩

set_option maxRecDepth 100000 in
/-- C7 fails as stated: the line with the count field `-5` is not skipped, it gives a
record with count -5, and `Check` returns -5 with a nil error for the password whose
suffix that record has. -/
theorem Check_negative_count :
    readHashes 64 ⟨str "ABC:-5", false⟩ = ([⟨str "ABC", -5⟩], none) ∧
    readHashes 64 ⟨negativeBody, false⟩
      = ([⟨str "3EE5E6B4B0D3255BFEF95601890AFD80709", -5⟩], none) ∧
    (Check env64 (clientServing (str "200 OK") 200 negativeBody) []).ret = some (-5, none) := by
  decide

theorem Check_sent_eq (env : Env) (c : Client) (password : Bytes) :
    (Check env c password).sent = (getHashes env c (HashPassword password).1).sent := by
  unfold Check
  simp only
  split <;> rfl

theorem getHashesRequest_eq (env : Env) (c : Client) (pfx : Bytes) :
    getHashesRequest env c pfx
      = match env.urlParse (c.h ++ pfx) with
        | some err => .error err
        | none => .ok { Method := str "GET", URL := c.h ++ pfx,
                        Header := [(str "User-Agent", userAgent)], Body := none } := by
  unfold getHashesRequest NewRequest
  cases env.urlParse (c.h ++ pfx) <;> simp [Request.setHeader]

theorem getHashes_sent (env : Env) (c : Client) (pfx : Bytes) :
    (getHashes env c pfx).sent
      = match env.urlParse (c.h ++ pfx), c.c with
        | none, some _ => [{ Method := str "GET", URL := c.h ++ pfx,
                             Header := [(str "User-Agent", userAgent)], Body := none }]
        | _, _ => [] := by
  unfold getHashes
  rw [getHashesRequest_eq]
  cases hp : env.urlParse (c.h ++ pfx) with
  | some err => simp
  | none =>
    cases hc : c.c with
    | none => simp
    | some client =>
      simp only
      split
      · rfl
      · split <;> rfl

/-- C10: the requests `Check` hands to the HTTP client depend on the password only
through the prefix: two passwords with the same prefix cause the same requests; at
most one request is sent, and it is the `GET` of the base address followed by the
prefix returned by `HashPassword`, with the constant `User-Agent` header and no
body; it is sent whenever the URL parses and the client has an HTTP client. -/
theorem Check_request (env : Env) (c : Client) (password other : Bytes)
    (hshare : (HashPassword password).1 = (HashPassword other).1) :
    (Check env c password).sent = (Check env c other).sent ∧
    ((Check env c password).sent = [] ∨
      (Check env c password).sent = [checkRequest c password]) ∧
    (env.urlParse (c.h ++ (HashPassword password).1) = none → c.c ≠ none →
      (Check env c password).sent = [checkRequest c password]) ∧
    checkRequest c password = checkRequest c other := by
  refine ⟨?_, ?_, ?_, ?_⟩
  · rw [Check_sent_eq, Check_sent_eq, hshare]
  · rw [Check_sent_eq, getHashes_sent]
    split
    · right; rfl
    · left; rfl
  · intro hp hc
    rw [Check_sent_eq, getHashes_sent, hp]
    cases hcc : c.c with
    | none => exact absurd hcc hc
    | some client => rfl
  · unfold checkRequest
    rw [hshare]

set_option maxRecDepth 100000 in
theorem Check_request_witness :
    (HashPassword (str "pw2001")).1 = (HashPassword (str "pw2501")).1 ∧
    (HashPassword (str "pw2001")).2 ≠ (HashPassword (str "pw2501")).2 ∧
    (Check env64 (clientServing (str "200 OK") 200 testAPIOutput) (str "pw2001")).sent
      = (Check env64 (clientServing (str "200 OK") 200 testAPIOutput) (str "pw2501")).sent ∧
    (Check env64 (clientServing (str "200 OK") 200 testAPIOutput) (str "pw2001")).sent
      = [{ Method := str "GET", URL := str "http://127.0.0.1/range/DC0A5",
           Header := [(str "User-Agent", userAgent)], Body := none }] :=
  ⟨by decide, by decide,
   (Check_request env64 (clientServing (str "200 OK") 200 testAPIOutput) (str "pw2001")
     (str "pw2501") (by decide)).1,
   by decide⟩

/-! ## Properties of `New` -/

/-- C12: `New` does not reject "~notAurl", the string that the table of `TestNew` marks
as an invalid URL: `url.Parse` reads it as a relative path, so `New` returns a client
with that base address and a nil error, whatever the platform and the HTTP client. -/
theorem New_notAurl (intSize : Nat) (parseAuthority : Bytes → Option Bytes)
    (httpClient : HTTPClient) :
    Parse parseAuthority (str "~notAurl") = none ∧
    New { intSize := intSize, urlParse := Parse parseAuthority } httpClient (str "~notAurl")
      = ({ h := str "~notAurl", c := some httpClient }, none) := by
  have h : Parse parseAuthority (str "~notAurl") = none := by rfl
  exact ⟨h, by simp [New, h]⟩

/-- C13: when `New` succeeds the client holds `urlStr` unchanged as its base address
and a non-nil HTTP client; every request of a later `Check` is for `urlStr` followed by
the prefix of the password, and `Check` hands exactly that request to the HTTP client
whenever `urlStr` followed by the prefix parses. -/
theorem New_stores (env : Env) (httpClient : HTTPClient) (urlStr : Bytes) (c : Client)
    (h : New env httpClient urlStr = (c, none)) :
    c.h = urlStr ∧ c.c = some httpClient ∧ c.c ≠ none ∧
    (∀ password, ∀ req ∈ (Check env c password).sent,
      req.URL = urlStr ++ (HashPassword password).1) ∧
    (∀ password, env.urlParse (urlStr ++ (HashPassword password).1) = none →
      (Check env c password).sent
        = [{ Method := str "GET", URL := urlStr ++ (HashPassword password).1,
             Header := [(str "User-Agent", userAgent)], Body := none }]) := by
  unfold New at h
  cases hp : env.urlParse urlStr with
  | some err => rw [hp] at h; simp at h
  | none =>
    rw [hp] at h
    have hc : c = { h := urlStr, c := some httpClient } := (Prod.mk.inj h).1.symm
    subst hc
    refine ⟨rfl, rfl, by simp, ?_, ?_⟩
    · intro password req hreq
      rw [Check_sent_eq, getHashes_sent] at hreq
      split at hreq
      · rw [List.mem_singleton] at hreq
        rw [hreq]
      · cases hreq
    · intro password hparse
      rw [Check_sent_eq, getHashes_sent]
      simp only [hparse]

set_option maxRecDepth 100000 in
theorem New_stores_witness :
    New env64 offline DefaultURL = ({ h := DefaultURL, c := some offline }, none) ∧
    DefaultURL ++ (HashPassword (str "password")).1
      = str "https://api.pwnedpasswords.com/range/5BAA6" ∧
    (Check env64 { h := DefaultURL, c := some offline } (str "password")).sent
      = [{ Method := str "GET", URL := DefaultURL ++ (HashPassword (str "password")).1,
           Header := [(str "User-Agent", userAgent)], Body := none }] ∧
    ∀ password, ∀ req ∈
        (Check env64 { h := DefaultURL, c := some offline } password).sent,
      req.URL = DefaultURL ++ (HashPassword password).1 :=
  ⟨rfl, by decide,
   (New_stores env64 offline DefaultURL { h := DefaultURL, c := some offline } rfl).2.2.2.2
     (str "password") rfl,
   (New_stores env64 offline DefaultURL { h := DefaultURL, c := some offline } rfl).2.2.2.1⟩

/-! ## The order of the records -/

theorem checkLoop_perm {l1 l2 : List hashCount} (suffix : Bytes) (hperm : l1.Perm l2)
    (hnodup : (l1.map hashCount.suffix).Nodup) : checkLoop l1 suffix = checkLoop l2 suffix := by
  rcases checkLoop_cases l1 suffix with hno | ⟨pre, h, post, he, hpre, hh⟩
  · rw [checkLoop_none l1 suffix hno,
      checkLoop_none l2 suffix (fun x hx => hno x (hperm.mem_iff.mpr hx))]
  · have hmem : h ∈ l1 := by rw [he]; simp
    have e1 : checkLoop l1 suffix = (h.count, none) := by
      rw [he]; exact checkLoop_first pre h post suffix hpre hh
    rcases checkLoop_cases l2 suffix with hno2 | ⟨pre2, h2, post2, he2, hpre2, hh2⟩
    · exact absurd hh (hno2 h (hperm.mem_iff.mp hmem))
    · have hmem2 : h2 ∈ l1 := hperm.mem_iff.mpr (by rw [he2]; simp)
      have heq : h2 = h := List.inj_on_of_nodup_map hnodup hmem2 hmem (hh2.trans hh.symm)
      rw [e1, he2, checkLoop_first pre2 h2 post2 suffix hpre2 hh2, heq]

theorem Check_clientServing (status : Bytes) (code : Int) (body password : Bytes) :
    (Check env64 (clientServing status code body) password).ret = some
      (if code ≠ 200 then (-1, some (Error.getHashesFailed (Error.unexpectedStatus status)))
      else if (readHashes 64 ⟨body, false⟩).1 = [] then
        (-1, some (Error.getHashesFailed Error.noHashes))
      else checkLoop (readHashes 64 ⟨body, false⟩).1 (HashPassword password).2) :=
  Check_of_answer (Answers_clientServing status code body password)

/-- C11, as amended: for every password and every two status-200 bodies whose lines
are permutations of each other, all shorter than `MaxScanTokenSize` bytes, and in
which no suffix occurs in more than one valid record, `Check` returns the same count
and the same error for both bodies. -/
theorem Check_perm (env : Env) (c1 c2 : Client) (password : Bytes) (resp1 resp2 : Response)
    (h1 : Answers env c1 password resp1) (h2 : Answers env c2 password resp2)
    (hs1 : resp1.StatusCode = 200) (hs2 : resp2.StatusCode = 200)
    (hperm : (bodyLines resp1.Body.data).Perm (bodyLines resp2.Body.data))
    (hshort : ∀ l ∈ bodyLines resp1.Body.data, l.length < MaxScanTokenSize)
    (hnodup : ((filterPass env.intSize resp1.Body.data).map hashCount.suffix).Nodup) :
    (Check env c1 password).ret = (Check env c2 password).ret := by
  have hshort2 : ∀ l ∈ bodyLines resp2.Body.data, l.length < MaxScanTokenSize :=
    fun l hl => hshort l (hperm.mem_iff.mpr hl)
  have e1 : (readHashes env.intSize resp1.Body).1 = filterPass env.intSize resp1.Body.data :=
    readHashes_short env.intSize resp1.Body.eofWithData resp1.Body.data hshort
  have e2 : (readHashes env.intSize resp2.Body).1 = filterPass env.intSize resp2.Body.data :=
    readHashes_short env.intSize resp2.Body.eofWithData resp2.Body.data hshort2
  have hp : (filterPass env.intSize resp1.Body.data).Perm
      (filterPass env.intSize resp2.Body.data) := hperm.filterMap _
  rw [Check_of_answer h1, Check_of_answer h2, e1, e2]
  simp only [hs1, hs2, ne_eq, not_true_eq_false, if_false]
  by_cases he : filterPass env.intSize resp1.Body.data = []
  · have he2 : filterPass env.intSize resp2.Body.data = [] := by
      rw [he] at hp; exact hp.nil_eq.symm
    rw [if_pos he, if_pos he2]
  · have he2 : filterPass env.intSize resp2.Body.data ≠ [] := by
      intro h0
      rw [h0] at hp
      exact he hp.eq_nil
    rw [if_neg he, if_neg he2, checkLoop_perm _ hp hnodup]

set_option maxRecDepth 100000 in
theorem Check_perm_witness :
    (bodyLines testAPIOutput).Perm (bodyLines permutedAPIOutput) ∧
    testAPIOutput ≠ permutedAPIOutput ∧
    (Check env64 (clientServing (str "200 OK") 200 testAPIOutput) (str "password")).ret
      = some (3303003, none) ∧
    (Check env64 (clientServing (str "200 OK") 200 testAPIOutput) (str "password")).ret
      = (Check env64 (clientServing (str "200 OK") 200 permutedAPIOutput) (str "password")).ret :=
  ⟨by decide, by decide, by decide,
   Check_perm env64 _ _ (str "password") _ _
    (Answers_clientServing (str "200 OK") 200 testAPIOutput (str "password"))
    (Answers_clientServing (str "200 OK") 200 permutedAPIOutput (str "password"))
    rfl rfl (by decide) (by decide) (by decide)⟩

theorem longLineLastBody_lines :
    bodyLines longLineLastBody = [str "ABC:1", List.replicate 65536 65] := by
  have e5 : (10 : UInt8) ∉ str "ABC:1" := by decide
  unfold longLineLastBody
  rw [bodyLines_line _ _ e5, bodyLines_line _ _ longLine_no_lf]
  rfl

theorem longLineLastBody_records (e : Bool) :
    readHashes 64 ⟨longLineLastBody, e⟩ = ([⟨str "ABC", 1⟩], none) := by
  have e1 : lineRecord 64 (dropCR (str "ABC:1")) = some ⟨str "ABC", 1⟩ := by decide
  have e5 : (10 : UInt8) ∉ str "ABC:1" := by decide
  have e6 : ([] : Bytes).length + (str "ABC:1").length < MaxScanTokenSize := by decide
  have hs : scanTexts ⟨longLineLastBody, e⟩ = [dropCR (str "ABC:1")] := by
    unfold scanTexts longLineLastBody
    show scanLoop e _ [] = _
    rw [scanLoop_line e _ _ [] e5, if_pos e6,
      scanLoop_line e _ _ [] longLine_no_lf, if_neg (longLine_too_long _)]
    rfl
  have h1 : (readHashes 64 ⟨longLineLastBody, e⟩).1 = [⟨str "ABC", 1⟩] := by
    rw [readHashes_eq, hs, List.filterMap_cons_some e1, List.filterMap_nil]
  have h2 := readHashes_snd 64 ⟨longLineLastBody, e⟩
  rw [h1, if_neg (by simp)] at h2
  exact Prod.ext h1 h2

set_option maxRecDepth 100000 in
/-- C11 fails as stated: `longLineBody` and `longLineLastBody` have the same two lines
in opposite orders, and one valid record; `Check` returns the error "no hashes in
response" for the first and count 0 with a nil error for the second. -/
theorem Check_perm_longLine :
    (bodyLines longLineBody).Perm (bodyLines longLineLastBody) ∧
    filterPass 64 longLineBody = [⟨str "ABC", 1⟩] ∧
    filterPass 64 longLineLastBody = [⟨str "ABC", 1⟩] ∧
    (Check env64 (clientServing (str "200 OK") 200 longLineBody) []).ret
      = some (-1, some (Error.getHashesFailed Error.noHashes)) ∧
    (Check env64 (clientServing (str "200 OK") 200 longLineLastBody) []).ret
      = some (0, none) := by
  have e1 : lineRecord 64 (dropCR (str "ABC:1")) = some ⟨str "ABC", 1⟩ := by decide
  have e2 := lineRecord_no_colon 64 _ longLine_no_colon
  refine ⟨?_, ?_, ?_, ?_, ?_⟩
  · rw [longLineBody_lines, longLineLastBody_lines]
    exact List.Perm.swap _ _ _
  · unfold filterPass
    rw [longLineBody_lines,
      List.filterMap_cons_none (f := fun l => lineRecord 64 (dropCR l)) e2,
      List.filterMap_cons_some (f := fun l => lineRecord 64 (dropCR l)) e1,
      List.filterMap_nil]
  · unfold filterPass
    rw [longLineLastBody_lines,
      List.filterMap_cons_some (f := fun l => lineRecord 64 (dropCR l)) e1,
      List.filterMap_cons_none (f := fun l => lineRecord 64 (dropCR l)) e2,
      List.filterMap_nil]
  · rw [Check_clientServing, longLineBody_error false]
    rfl
  · rw [Check_clientServing, longLineLastBody_records false]
    have : checkLoop [⟨str "ABC", 1⟩] (HashPassword []).2 = (0, none) := by decide
    simp [this]

/-! ## Line terminators -/

theorem dropCR_cons (b : UInt8) (l : Bytes) (hb : b ≠ 13) : dropCR (b :: l) = b :: dropCR l := by
  cases l with
  | nil => simp [dropCR, hb]
  | cons x xs =>
    unfold dropCR
    rw [List.getLast?_cons_cons]
    split <;> simp

theorem readHashes_ext {n : Nat} {r1 r2 : Reader}
    (h : (readHashes n r1).1 = (readHashes n r2).1) : readHashes n r1 = readHashes n r2 := by
  refine Prod.ext h ?_
  rw [readHashes_snd n r1, readHashes_snd n r2, h]

theorem crlf_lines (body : Bytes) (hcr : (13 : UInt8) ∉ body) :
    List.Forall₂ (fun l2 l => l2.length ≤ l.length + 1 ∧ dropCR l2 = dropCR l)
      (bodyLines (crlf body)) (bodyLines body) := by
  induction body with
  | nil => exact List.Forall₂.nil
  | cons b rest ih =>
    have hb13 : b ≠ 13 := fun h => hcr (h ▸ List.mem_cons_self _ _)
    have ih := ih (fun h => hcr (List.mem_cons_of_mem _ h))
    by_cases hb : b = 10
    · subst hb
      have e1 : bodyLines (crlf (10 :: rest)) = [13] :: bodyLines (crlf rest) := by
        simp [crlf, bodyLines]
      have e2 : bodyLines (10 :: rest) = [] :: bodyLines rest := by simp [bodyLines]
      rw [e1, e2]
      exact List.Forall₂.cons ⟨by simp, by simp [dropCR]⟩ ih
    · have e1 : bodyLines (crlf (b :: rest))
          = (match bodyLines (crlf rest) with
            | [] => [[b]]
            | l :: ls => (b :: l) :: ls) := by
        simp only [crlf, hb, if_false, bodyLines]
      have e2 : bodyLines (b :: rest)
          = (match bodyLines rest with
            | [] => [[b]]
            | l :: ls => (b :: l) :: ls) := by
        simp only [hb, if_false, bodyLines]
      rw [e1, e2]
      generalize bodyLines (crlf rest) = L2 at ih
      generalize bodyLines rest = L at ih
      cases ih with
      | nil => exact List.Forall₂.cons ⟨by simp, rfl⟩ List.Forall₂.nil
      | cons hhead htail =>
        refine List.Forall₂.cons ⟨?_, ?_⟩ htail
        · simp only [List.length_cons]; omega
        · rw [dropCR_cons _ _ hb13, dropCR_cons _ _ hb13, hhead.2]

theorem forall₂_map_dropCR {L2 L : List Bytes}
    (h : List.Forall₂ (fun l2 l => l2.length ≤ l.length + 1 ∧ dropCR l2 = dropCR l) L2 L) :
    L2.map dropCR = L.map dropCR ∧
    ∀ l2 ∈ L2, ∃ l ∈ L, l2.length ≤ l.length + 1 := by
  induction h with
  | nil => exact ⟨rfl, fun _ h => by cases h⟩
  | cons hhead _ ih =>
    refine ⟨by simp [hhead.2, ih.1], ?_⟩
    intro l2 hl2
    rcases List.mem_cons.mp hl2 with rfl | hl2
    · exact ⟨_, List.mem_cons_self _ _, hhead.1⟩
    · obtain ⟨l, hl, hlen⟩ := ih.2 l2 hl2
      exact ⟨l, List.mem_cons_of_mem _ hl, hlen⟩

theorem bodyLines_append_lf (body : Bytes) :
    bodyLines (body ++ [10]) = bodyLines body ∨
    bodyLines (body ++ [10]) = bodyLines body ++ [[]] := by
  induction body with
  | nil => right; simp [bodyLines]
  | cons b rest ih =>
    by_cases hb : b = 10
    · subst hb
      have e1 : bodyLines (10 :: (rest ++ [10])) = [] :: bodyLines (rest ++ [10]) := by
        simp [bodyLines]
      have e2 : bodyLines (10 :: rest) = [] :: bodyLines rest := by simp [bodyLines]
      rw [List.cons_append, e1, e2]
      rcases ih with ih | ih
      · left; rw [ih]
      · right; rw [ih]; rfl
    · have e1 : bodyLines (b :: (rest ++ [10]))
          = (match bodyLines (rest ++ [10]) with
            | [] => [[b]]
            | l :: ls => (b :: l) :: ls) := by
        simp only [hb, if_false, bodyLines]
      have e2 : bodyLines (b :: rest)
          = (match bodyLines rest with
            | [] => [[b]]
            | l :: ls => (b :: l) :: ls) := by
        simp only [hb, if_false, bodyLines]
      rw [List.cons_append, e1, e2]
      rcases ih with ih | ih
      · left; rw [ih]
      · rw [ih]
        cases bodyLines rest with
        | nil => left; rfl
        | cons l ls => right; rfl

theorem filterPass_append_lf (n : Nat) (body : Bytes) :
    filterPass n (body ++ [10]) = filterPass n body := by
  unfold filterPass
  rcases bodyLines_append_lf body with h | h
  · rw [h]
  · rw [h, List.filterMap_append]
    have : lineRecord n (dropCR []) = none := lineRecord_no_colon n [] (by simp)
    simp [this]

/-- C17, as amended: for every body that contains no carriage return and whose lines
are all shorter than `MaxScanTokenSize - 1` bytes, replacing every line feed by a
carriage return and a line feed leaves the result of `readHashes` (records, order and
error) and the scanned texts unchanged, and so does a line feed added after the final
line. -/
theorem readHashes_crlf (n : Nat) (body : Bytes) (e : Bool)
    (hcr : (13 : UInt8) ∉ body)
    (hshort : ∀ l ∈ bodyLines body, l.length + 1 < MaxScanTokenSize) :
    readHashes n ⟨crlf body, e⟩ = readHashes n ⟨body, e⟩ ∧
    scanTexts ⟨crlf body, e⟩ = scanTexts ⟨body, e⟩ ∧
    readHashes n ⟨body ++ [10], e⟩ = readHashes n ⟨body, e⟩ := by
  have hs : ∀ l ∈ bodyLines body, l.length < MaxScanTokenSize :=
    fun l hl => Nat.lt_of_succ_lt (hshort l hl)
  obtain ⟨hmap, hlen⟩ := forall₂_map_dropCR (crlf_lines body hcr)
  have hs2 : ∀ l2 ∈ bodyLines (crlf body), l2.length < MaxScanTokenSize := by
    intro l2 hl2
    obtain ⟨l, hl, hle⟩ := hlen l2 hl2
    exact Nat.lt_of_le_of_lt hle (hshort l hl)
  have htexts : scanTexts ⟨crlf body, e⟩ = scanTexts ⟨body, e⟩ := by
    rw [scanTexts_short e (crlf body) hs2, scanTexts_short e body hs, hmap]
  have hs3 : ∀ l ∈ bodyLines (body ++ [10]), l.length < MaxScanTokenSize := by
    intro l hl
    rcases bodyLines_append_lf body with h | h
    · rw [h] at hl; exact hs l hl
    · rw [h] at hl
      rcases List.mem_append.mp hl with hl | hl
      · exact hs l hl
      · rw [List.mem_singleton] at hl
        subst hl
        exact (by decide : (0 : Nat) < MaxScanTokenSize)
  refine ⟨readHashes_ext ?_, htexts, readHashes_ext ?_⟩
  · rw [readHashes_eq, readHashes_eq, htexts]
  · rw [readHashes_short n e _ hs3, readHashes_short n e _ hs, filterPass_append_lf]

set_option maxRecDepth 100000 in
theorem readHashes_crlf_witness :
    (13 : UInt8) ∉ testAPIOutput ∧
    crlf testAPIOutput = str "1E4C9B93F3F0682250B6CF8331B7EE68FD8:3303003\r\n4D0591EEAAC5A33064731DBD53F6A819DCE:0\r\n6101ED511A094D1E4E515BBF8D32B266090:42\r\n" ∧
    readHashes 64 ⟨crlf testAPIOutput, false⟩ = readHashes 64 ⟨testAPIOutput, false⟩ :=
  ⟨by decide, by decide,
   (readHashes_crlf 64 testAPIOutput false (by decide) (by decide)).1⟩

theorem crlf_line (l rest : Bytes) (hl : (10 : UInt8) ∉ l) :
    crlf (l ++ 10 :: rest) = l ++ 13 :: 10 :: crlf rest := by
  induction l with
  | nil => simp [crlf]
  | cons b l ih =>
    have hb : b ≠ 10 := fun h => hl (h ▸ List.mem_cons_self _ _)
    have hl2 : (10 : UInt8) ∉ l := fun h => hl (List.mem_cons_of_mem _ h)
    have hstep : crlf (b :: (l ++ 10 :: rest)) = b :: crlf (l ++ 10 :: rest) := by
      simp only [crlf, hb, if_false]
    rw [List.cons_append, hstep, ih hl2, List.cons_append]

theorem nearLine_not_mem (b : UInt8) (hb : b ≠ 65) :
    b ∉ List.replicate 65535 (65 : UInt8) :=
  fun h => hb (List.eq_of_mem_replicate h)

theorem scanLoop_lastLine (e : Bool) :
    scanLoop e (str "DEF:2\n") [] = [str "DEF:2"] ∧
    scanLoop e (crlf (str "DEF:2\n")) [] = [str "DEF:2"] := by
  cases e <;> decide

theorem nearLimitBody_records (e : Bool) :
    readHashes 64 ⟨nearLimitBody, e⟩ = ([⟨str "ABC", 1⟩, ⟨str "DEF", 2⟩], none) := by
  have e1 : lineRecord 64 (dropCR (str "ABC:1")) = some ⟨str "ABC", 1⟩ := by decide
  have e2 := lineRecord_no_colon 64 _ (nearLine_not_mem 58 (by decide))
  have e3 : lineRecord 64 (str "DEF:2") = some ⟨str "DEF", 2⟩ := by decide
  have e5 : (10 : UInt8) ∉ str "ABC:1" := by decide
  have e6 : ([] : Bytes).length + (str "ABC:1").length < MaxScanTokenSize := by decide
  have e7 : ([] : Bytes).length + (List.replicate 65535 (65 : UInt8)).length
      < MaxScanTokenSize := by
    rw [List.length_replicate]; decide
  have hs : scanTexts ⟨nearLimitBody, e⟩
      = [dropCR (str "ABC:1"), dropCR (List.replicate 65535 65), str "DEF:2"] := by
    unfold scanTexts nearLimitBody
    show scanLoop e _ [] = _
    rw [scanLoop_line e _ _ [] e5, if_pos e6,
      scanLoop_line e _ _ [] (nearLine_not_mem 10 (by decide)), if_pos e7,
      (scanLoop_lastLine e).1]
    simp only [List.reverse_nil, List.nil_append]
  have h1 : (readHashes 64 ⟨nearLimitBody, e⟩).1 = [⟨str "ABC", 1⟩, ⟨str "DEF", 2⟩] := by
    rw [readHashes_eq, hs, List.filterMap_cons_some e1, List.filterMap_cons_none e2,
      List.filterMap_cons_some e3, List.filterMap_nil]
  have h2 := readHashes_snd 64 ⟨nearLimitBody, e⟩
  rw [h1, if_neg (by simp)] at h2
  exact Prod.ext h1 h2

theorem nearLimitBody_crlf_records (e : Bool) :
    readHashes 64 ⟨crlf nearLimitBody, e⟩ = ([⟨str "ABC", 1⟩], none) := by
  have e1 : lineRecord 64 (dropCR (str "ABC:1" ++ [13])) = some ⟨str "ABC", 1⟩ := by decide
  have e5 : (10 : UInt8) ∉ str "ABC:1" := by decide
  have e5b : (10 : UInt8) ∉ str "ABC:1" ++ [13] := by decide
  have e6 : ([] : Bytes).length + (str "ABC:1" ++ [13]).length < MaxScanTokenSize := by decide
  have e8 : (10 : UInt8) ∉ List.replicate 65535 (65 : UInt8) ++ [13] := by
    intro h
    rcases List.mem_append.mp h with h | h
    · exact nearLine_not_mem 10 (by decide) h
    · exact absurd (List.mem_singleton.mp h) (by decide)
  have e9 : ¬ (([] : Bytes).length + (List.replicate 65535 (65 : UInt8) ++ [13]).length
      < MaxScanTokenSize) := by
    rw [List.length_append, List.length_replicate]; decide
  have assoc : ∀ (l X : Bytes), l ++ 13 :: 10 :: X = (l ++ [13]) ++ 10 :: X :=
    fun l X => by simp
  have hs : scanTexts ⟨crlf nearLimitBody, e⟩ = [dropCR (str "ABC:1" ++ [13])] := by
    unfold scanTexts nearLimitBody
    show scanLoop e _ [] = _
    rw [crlf_line _ _ e5, crlf_line _ _ (nearLine_not_mem 10 (by decide)),
      assoc (str "ABC:1"), scanLoop_line e _ _ [] e5b, if_pos e6,
      assoc (List.replicate 65535 65), scanLoop_line e _ _ [] e8, if_neg e9]
    simp only [List.reverse_nil, List.nil_append]
  have h1 : (readHashes 64 ⟨crlf nearLimitBody, e⟩).1 = [⟨str "ABC", 1⟩] := by
    rw [readHashes_eq, hs, List.filterMap_cons_some e1, List.filterMap_nil]
  have h2 := readHashes_snd 64 ⟨crlf nearLimitBody, e⟩
  rw [h1, if_neg (by simp)] at h2
  exact Prod.ext h1 h2

/-- C17 fails as stated: `nearLimitBody` contains no carriage return and gives the two
records `ABC:1` and `DEF:2`; with every line feed replaced by a carriage return and a
line feed its second line has `MaxScanTokenSize` bytes, the scan ends there, and
`readHashes` returns the first record only. -/
theorem readHashes_crlf_nearLimit :
    (13 : UInt8) ∉ nearLimitBody ∧
    readHashes 64 ⟨nearLimitBody, false⟩ = ([⟨str "ABC", 1⟩, ⟨str "DEF", 2⟩], none) ∧
    readHashes 64 ⟨crlf nearLimitBody, false⟩ = ([⟨str "ABC", 1⟩], none) ∧
    readHashes 64 ⟨nearLimitBody, true⟩ = ([⟨str "ABC", 1⟩, ⟨str "DEF", 2⟩], none) ∧
    readHashes 64 ⟨crlf nearLimitBody, true⟩ = ([⟨str "ABC", 1⟩], none) := by
  refine ⟨?_, nearLimitBody_records false, nearLimitBody_crlf_records false,
    nearLimitBody_records true, nearLimitBody_crlf_records true⟩
  have a1 : (13 : UInt8) ∉ str "ABC:1" := by decide
  have a2 : (13 : UInt8) ∉ str "DEF:2\n" := by decide
  unfold nearLimitBody
  intro h
  rcases List.mem_append.mp h with h | h
  · exact a1 h
  · rcases List.mem_cons.mp h with h | h
    · exact absurd h (by decide)
    · rcases List.mem_append.mp h with h | h
      · exact nearLine_not_mem 13 (by decide) h
      · rcases List.mem_cons.mp h with h | h
        · exact absurd h (by decide)
        · exact a2 h

/-! ## The value of a count -/

theorem digitsValue_eq (s : Bytes) (acc : Nat) :
    digitsValue s acc
      = if allDigits s = true then some (acc * 10 ^ s.length + decimalValue s) else none := by
  induction s generalizing acc with
  | nil => simp [digitsValue, allDigits, decimalValue]
  | cons ch s ih =>
    by_cases hd : 48 ≤ ch.toNat ∧ ch.toNat ≤ 57
    · have hall : allDigits (ch :: s) = allDigits s := by
        simp [allDigits, hd]
      simp only [digitsValue, hd, and_self, if_true, ih, hall]
      by_cases hs : allDigits s = true
      · simp only [hs, if_true, decimalValue, List.length_cons]
        congr 1
        ring
      · simp [hs]
    · have hall : allDigits (ch :: s) = false := by
        simp only [allDigits, List.all_cons, Bool.and_eq_false_imp, decide_eq_true_eq]
        intro h; exact absurd h hd
      simp [digitsValue, hd, hall]

/-- What `Atoi` returns: the integer the string denotes, when it denotes one that an
`int` of `intSize` bits holds. -/
theorem Atoi_eq_fieldValue (n : Nat) (field : Bytes) :
    Atoi n field
      = match fieldValue field with
        | some v => if -(2 ^ (n - 1) : Int) ≤ v ∧ v < 2 ^ (n - 1) then some v else none
        | none => none := by
  obtain ⟨P, hP⟩ : ∃ P : Nat, P = 2 ^ (n - 1) := ⟨_, rfl⟩
  have hPi : ((2 : Int) ^ (n - 1)) = (P : Int) := by rw [hP]; push_cast; rfl
  have hPpos : 0 < P := by rw [hP]; positivity
  rw [hPi]
  cases field with
  | nil => simp [Atoi, fieldValue]
  | cons c rest =>
    by_cases h45 : c = 45
    · subst h45
      by_cases hr : rest = []
      · simp [Atoi, fieldValue, hr]
      · by_cases ha : allDigits rest = true
        · simp only [Atoi, fieldValue, true_or, if_true, hr, if_false, digitsValue_eq, ha,
            decide_True, ← hP, ne_eq, not_false_eq_true, and_self]
          by_cases hle : decimalValue rest ≤ P
          · have : -(P : Int) ≤ -(decimalValue rest : Int) ∧ -(decimalValue rest : Int) < P := by
              omega
            simp [hle, this]
          · have : ¬ (-(P : Int) ≤ -(decimalValue rest : Int) ∧
                -(decimalValue rest : Int) < P) := by omega
            simp [hle, this]
        · simp [Atoi, fieldValue, hr, digitsValue_eq, ha]
    · by_cases h43 : c = 43
      · subst h43
        by_cases hr : rest = []
        · simp [Atoi, fieldValue, hr]
        · by_cases ha : allDigits rest = true
          · simp only [Atoi, fieldValue, or_true, if_true, hr, if_false, digitsValue_eq, ha,
              ← hP, ne_eq, not_false_eq_true, and_self]
            have h45b : ¬ ((43 : UInt8) = 45) := by decide
            simp only [h45b, decide_False, if_false, Bool.false_eq_true]
            by_cases hlt : decimalValue rest < P
            · have : -(P : Int) ≤ (decimalValue rest : Int) ∧ (decimalValue rest : Int) < P := by
                omega
              simp [hlt, this]
            · have : ¬ (-(P : Int) ≤ (decimalValue rest : Int) ∧
                  (decimalValue rest : Int) < P) := by omega
              simp [hlt, this]
          · simp [Atoi, fieldValue, hr, digitsValue_eq, ha]
      · by_cases ha : allDigits (c :: rest) = true
        · simp only [Atoi, fieldValue, h45, h43, or_self, if_false, digitsValue_eq, ha,
            ← hP, decide_False, Bool.false_eq_true, if_true, reduceCtorEq]
          by_cases hlt : decimalValue (c :: rest) < P
          · have : -(P : Int) ≤ (decimalValue (c :: rest) : Int) ∧
                (decimalValue (c :: rest) : Int) < P := by omega
            simp [hlt, this]
          · have : ¬ (-(P : Int) ≤ (decimalValue (c :: rest) : Int) ∧
                (decimalValue (c :: rest) : Int) < P) := by omega
            simp [hlt, this]
        · simp [Atoi, fieldValue, h45, h43, digitsValue_eq, ha]

/-- C18: the count of every record returned by `readHashes` is the exact integer that
the second field of its line denotes, and a line whose second field denotes an
integer outside the range of `int`, from `-2^(intSize-1)` to `2^(intSize-1) - 1`,
contributes no record. -/
theorem readHashes_exact_counts (n : Nat) (r : Reader) :
    (∀ x ∈ (readHashes n r).1, ∃ line ∈ scanTexts r, ∃ field,
      Split line 58 = [x.suffix, field] ∧ fieldValue field = some x.count) ∧
    (∀ line ∈ scanTexts r, ∀ f1 f2 v, Split line 58 = [f1, f2] → fieldValue f2 = some v →
      (v < -(2 ^ (n - 1) : Int) ∨ (2 ^ (n - 1) : Int) ≤ v) → lineRecord n line = none) ∧
    (readHashes n r).1 = (scanTexts r).filterMap (lineRecord n) := by
  refine ⟨?_, ?_, readHashes_eq n r⟩
  · intro x hx
    rw [readHashes_eq] at hx
    obtain ⟨line, hline, hl⟩ := List.mem_filterMap.mp hx
    obtain ⟨field, hs, ha⟩ := lineRecord_some hl
    refine ⟨line, hline, field, hs, ?_⟩
    rw [Atoi_eq_fieldValue] at ha
    cases hf : fieldValue field with
    | none => rw [hf] at ha; cases ha
    | some v =>
      rw [hf] at ha
      simp only at ha
      split at ha
      · exact congrArg some (Option.some.inj ha)
      · cases ha
  · intro line _ f1 f2 v hs hf hrange
    have ha : Atoi n f2 = none := by
      rw [Atoi_eq_fieldValue, hf]
      have : ¬ (-(2 ^ (n - 1) : Int) ≤ v ∧ v < 2 ^ (n - 1)) := by
        intro h; rcases hrange with h1 | h1 <;> omega
      simp [this]
    simp [lineRecord, hs, ha]

set_option maxRecDepth 100000 in
theorem readHashes_exact_counts_witness :
    readHashes 64 ⟨overflowBody, false⟩
      = ([⟨str "A", 9223372036854775807⟩, ⟨str "C", -9223372036854775808⟩], none) ∧
    fieldValue (str "9223372036854775808") = some 9223372036854775808 ∧
    lineRecord 64 (str "B:9223372036854775808") = none :=
  ⟨by decide, by decide,
   (readHashes_exact_counts 64 ⟨overflowBody, false⟩).2.1 (str "B:9223372036854775808")
     (by decide) (str "B") (str "9223372036854775808") 9223372036854775808
     (by decide) (by decide) (by decide)⟩

/-! ## Decimal output -/

theorem ofNat_digit_toNat (d : Nat) (hd : d < 10) : (UInt8.ofNat (48 + d)).toNat = 48 + d := by
  have : ∀ k : Fin 10, (UInt8.ofNat (48 + k.val)).toNat = 48 + k.val := by decide
  exact this ⟨d, hd⟩

theorem allDigits_cons (ch : UInt8) (s : Bytes) :
    allDigits (ch :: s) = true ↔ (48 ≤ ch.toNat ∧ ch.toNat ≤ 57) ∧ allDigits s = true := by
  simp [allDigits]

theorem formatBits_spec (fuel u : Nat) (acc : Bytes) (hu : u < fuel)
    (hacc : allDigits acc = true) :
    allDigits (formatBits fuel u acc) = true ∧
    formatBits fuel u acc ≠ [] ∧
    decimalValue (formatBits fuel u acc) = u * 10 ^ acc.length + decimalValue acc := by
  induction fuel generalizing u acc with
  | zero => omega
  | succ fuel ih =>
    unfold formatBits
    by_cases h10 : u < 10
    · rw [if_pos h10]
      have ht := ofNat_digit_toNat u h10
      refine ⟨?_, by simp, ?_⟩
      · rw [allDigits_cons, ht]; exact ⟨by omega, hacc⟩
      · simp only [decimalValue, ht]
        congr 1
        rw [Nat.add_sub_cancel_left]
    · rw [if_neg h10]
      have hm : u % 10 < 10 := Nat.mod_lt _ (by decide)
      have ht := ofNat_digit_toNat (u % 10) hm
      have hacc2 : allDigits (UInt8.ofNat (48 + u % 10) :: acc) = true := by
        rw [allDigits_cons, ht]; exact ⟨by omega, hacc⟩
      obtain ⟨h1, h2, h3⟩ := ih (u / 10) _ (by omega) hacc2
      refine ⟨h1, h2, ?_⟩
      rw [h3]
      simp only [decimalValue, ht, List.length_cons, Nat.add_sub_cancel_left]
      have hdm : u = 10 * (u / 10) + u % 10 := (Nat.div_add_mod u 10).symm
      generalize u / 10 = q at hdm ⊢
      generalize u % 10 = r at hdm ⊢
      subst hdm
      ring

theorem FormatUint_spec (i : Nat) :
    allDigits (FormatUint i) = true ∧ FormatUint i ≠ [] ∧ decimalValue (FormatUint i) = i := by
  obtain ⟨h1, h2, h3⟩ := formatBits_spec (i + 1) i [] (by omega) rfl
  exact ⟨h1, h2, by rw [FormatUint, h3]; simp [decimalValue]⟩

/-- The output of `FormatInt` denotes the number it was given. -/
theorem fieldValue_FormatInt (i : Int) : fieldValue (FormatInt i) = some i := by
  obtain ⟨h1, h2, h3⟩ := FormatUint_spec i.natAbs
  unfold FormatInt
  by_cases hneg : i < 0
  · rw [if_pos hneg]
    simp only [fieldValue, if_true, h1, h2, ne_eq, not_false_eq_true, and_self, h3]
    congr 1
    omega
  · rw [if_neg hneg]
    cases hf : FormatUint i.natAbs with
    | nil => exact absurd hf h2
    | cons c rest =>
      rw [hf] at h1 h3
      have hc := ((allDigits_cons c rest).mp h1).1
      have h45 : c ≠ 45 := by
        intro h; rw [h] at hc; exact absurd hc (by decide)
      have h43 : c ≠ 43 := by
        intro h; rw [h] at hc; exact absurd hc (by decide)
      simp only [fieldValue, h45, h43, if_false, h1, if_true, h3]
      congr 1
      omega

/-! ## Thousands grouping -/

theorem groupRev_ne_nil (d : UInt8) (q : Bytes) (c : Nat) : groupRev (d :: q) c ≠ [] := by
  unfold groupRev; split <;> simp

theorem groupRev_length (q : Bytes) (c : Nat) (hq : q ≠ []) :
    (groupRev q c).length = q.length + (c % 3 + q.length - 1) / 3 := by
  induction q generalizing c with
  | nil => exact absurd rfl hq
  | cons d q ih =>
    cases q with
    | nil => simp [groupRev]
    | cons d2 q2 =>
      have ih := ih (c + 1) (by simp)
      unfold groupRev
      by_cases hc : (c + 1) % 3 = 0
      · rw [if_pos ⟨hc, by simp⟩]
        simp only [List.length_cons] at ih ⊢
        rw [ih]; omega
      · rw [if_neg (fun h => hc h.1)]
        simp only [List.length_cons] at ih ⊢
        rw [ih]; omega

theorem groupRev_short (q : Bytes) (c : Nat) (h : c + q.length ≤ 3) : groupRev q c = q := by
  induction q generalizing c with
  | nil => rfl
  | cons d q ih =>
    unfold groupRev
    have hcond : ¬ ((c + 1) % 3 = 0 ∧ q ≠ []) := by
      rintro ⟨h1, h2⟩
      have : 0 < q.length := List.length_pos.mpr h2
      simp only [List.length_cons] at h
      omega
    rw [if_neg hcond, ih (c + 1) (by simp only [List.length_cons] at h; omega)]

theorem groupRev_period (q : Bytes) (c : Nat) : groupRev q (c + 3) = groupRev q c := by
  induction q generalizing c with
  | nil => rfl
  | cons d q ih =>
    unfold groupRev
    have h1 : (c + 3 + 1) % 3 = (c + 1) % 3 := by omega
    have h2 : groupRev q (c + 3 + 1) = groupRev q (c + 1) := by
      have := ih (c + 1)
      rwa [show c + 1 + 3 = c + 3 + 1 by omega] at this
    rw [h1, h2]

theorem groupRev_filter (q : Bytes) (c : Nat) (hq : (44 : UInt8) ∉ q) :
    (groupRev q c).filter (fun b => b ≠ 44) = q := by
  induction q generalizing c with
  | nil => rfl
  | cons d q ih =>
    have hd : d ≠ 44 := fun h => hq (h ▸ List.mem_cons_self _ _)
    have ih := ih (c + 1) (fun h => hq (List.mem_cons_of_mem _ h))
    unfold groupRev
    split <;> simp [hd] <;> simpa using ih

theorem groupRev_mem (q : Bytes) (c : Nat) :
    ∀ b ∈ groupRev q c, b = 44 ∨ b ∈ q := by
  induction q generalizing c with
  | nil => intro b hb; cases hb
  | cons d q ih =>
    intro b hb
    unfold groupRev at hb
    split at hb
    · rcases List.mem_cons.mp hb with h | hb
      · right; rw [h]; exact List.mem_cons_self _ _
      · rcases List.mem_cons.mp hb with h | hb
        · left; exact h
        · rcases ih (c + 1) b hb with h | h
          · left; exact h
          · right; exact List.mem_cons_of_mem _ h
    · rcases List.mem_cons.mp hb with h | hb
      · right; rw [h]; exact List.mem_cons_self _ _
      · rcases ih (c + 1) b hb with h | h
        · left; exact h
        · right; exact List.mem_cons_of_mem _ h

theorem set_replicate_append (m : Nat) (z v : UInt8) (t : Bytes) :
    (List.replicate (m + 1) z ++ t).set m v = List.replicate m z ++ v :: t := by
  induction m with
  | zero => rfl
  | succ m ih =>
    rw [List.replicate_succ, List.cons_append, List.set_cons_succ, ih]
    rfl

theorem setByte_replicate (m : Nat) (v : UInt8) (t : Bytes) :
    setByte (List.replicate (m + 1) 0 ++ t) (m : Int) v = some (List.replicate m 0 ++ v :: t) := by
  unfold setByte
  have h : (0 : Int) ≤ (m : Int) ∧ (m : Int) < ((List.replicate (m + 1) (0 : UInt8) ++ t).length : Int) := by
    simp only [List.length_append, List.length_replicate]
    omega
  rw [if_pos h, Int.toNat_ofNat, set_replicate_append]

/-- The loop of `commaInt64`, started with `m` unwritten bytes in front of `tail`,
where `m` is the number of bytes that remain to be written for the first `k` digits:
it does not panic, and it writes those bytes in front of `tail`. -/
theorem commaInt64Loop_spec (s : Bytes) (k : Nat) (hk : k ≤ s.length) (c m : Nat) (tail : Bytes)
    (hm : m = (groupRev (s.take k).reverse c).length) :
    commaInt64Loop s k ⟨List.replicate m 0 ++ tail, (m : Int) - 1, c⟩
      = some ⟨(groupRev (s.take k).reverse c).reverse ++ tail, -1, c + k⟩ := by
  induction k generalizing c m tail with
  | zero =>
    simp only [List.take_zero, List.reverse_nil, groupRev, List.length_nil] at hm ⊢
    subst hm
    simp [commaInt64Loop]
  | succ k ih =>
    have hlt : k < s.length := hk
    have hget : s[k]? = some s[k] := List.getElem?_eq_getElem hlt
    have htake : (s.take (k + 1)).reverse = s[k] :: (s.take k).reverse := by
      rw [List.take_succ, hget]; simp
    rw [htake] at hm ⊢
    unfold commaInt64Loop
    rw [hget]
    simp only
    unfold groupRev at hm ⊢
    by_cases hcond : (c + 1) % 3 = 0 ∧ (s.take k).reverse ≠ []
    · rw [if_pos hcond] at hm ⊢
      simp only [List.length_cons] at hm
      obtain ⟨d2, q2, hq2⟩ := List.exists_cons_of_ne_nil hcond.2
      have hpos : 0 < (groupRev (s.take k).reverse (c + 1)).length := by
        rw [hq2]; exact List.length_pos.mpr (groupRev_ne_nil d2 q2 (c + 1))
      obtain ⟨m2, hm2⟩ : ∃ m2, m2 = (groupRev (s.take k).reverse (c + 1)).length := ⟨_, rfl⟩
      rw [← hm2] at hm hpos
      subst hm
      have e1 : ((m2 + 1 + 1 : Nat) : Int) - 1 = ((m2 + 1 : Nat) : Int) := by push_cast; ring
      have e2 : ((m2 + 1 : Nat) : Int) - 1 = (m2 : Int) := by push_cast; ring
      have hguard : (c + 1) % 3 = 0 ∧ (m2 : Int) > 0 := ⟨hcond.1, by omega⟩
      rw [e1, setByte_replicate]
      simp only [e2]
      rw [if_pos hguard, setByte_replicate]
      simp only
      rw [ih (Nat.le_of_lt hlt) (c + 1) m2 (44 :: s[k] :: tail) hm2]
      simp [Nat.add_assoc, Nat.add_comm 1 k]
    · rw [if_neg hcond] at hm ⊢
      simp only [List.length_cons] at hm
      obtain ⟨m2, hm2⟩ : ∃ m2, m2 = (groupRev (s.take k).reverse (c + 1)).length := ⟨_, rfl⟩
      rw [← hm2] at hm
      subst hm
      have e2 : ((m2 + 1 : Nat) : Int) - 1 = (m2 : Int) := by push_cast; ring
      have hguard : ¬ ((c + 1) % 3 = 0 ∧ (m2 : Int) - 1 > 0) := by
        rintro ⟨h1, h2⟩
        have hnil : (s.take k).reverse = [] := by
          by_contra hne
          exact hcond ⟨h1, hne⟩
        rw [hnil] at hm2
        simp only [groupRev, List.length_nil] at hm2
        omega
      rw [e2, setByte_replicate]
      simp only
      rw [if_neg hguard, ih (Nat.le_of_lt hlt) (c + 1) m2 (s[k] :: tail) hm2]
      simp [Nat.add_assoc, Nat.add_comm 1 k]

theorem allDigits_mem {s : Bytes} (h : allDigits s = true) :
    ∀ b ∈ s, 48 ≤ b.toNat ∧ b.toNat ≤ 57 := by
  intro b hb
  have := List.all_eq_true.mp h b hb
  simpa using this

theorem allDigits_of_mem {s : Bytes} (h : ∀ b ∈ s, 48 ≤ b.toNat ∧ b.toNat ≤ 57) :
    allDigits s = true := by
  apply List.all_eq_true.mpr
  intro b hb
  simpa using h b hb

theorem FormatInt_drop (i : Int) :
    (if decide (i < 0) = true then (FormatInt i).drop 1 else FormatInt i)
      = FormatUint i.natAbs := by
  unfold FormatInt
  by_cases h : i < 0 <;> simp [h]

/-- What `commaInt64` returns: it does not panic, and its result is the sign and the
bytes that `groupRev` lists for the digits taken from the right, in reverse. -/
theorem commaInt64_eq (i : Int) :
    commaInt64 i = some ((if i < 0 then [45] else [])
      ++ (groupRev (FormatUint i.natAbs).reverse 0).reverse) := by
  obtain ⟨_, hne, _⟩ := FormatUint_spec i.natAbs
  have hlen : 0 < (FormatUint i.natAbs).length := List.length_pos.mpr hne
  unfold commaInt64
  simp only [FormatInt_drop]
  by_cases h0 : ((FormatUint i.natAbs).length - 1) / 3 = 0
  · rw [if_pos h0]
    have hshort : groupRev (FormatUint i.natAbs).reverse 0 = (FormatUint i.natAbs).reverse :=
      groupRev_short _ 0 (by rw [List.length_reverse]; omega)
    rw [hshort, List.reverse_reverse]
    by_cases h : i < 0 <;> simp [h]
  · rw [if_neg h0]
    have hm : (FormatUint i.natAbs).length + ((FormatUint i.natAbs).length - 1) / 3
        = (groupRev ((FormatUint i.natAbs).take (FormatUint i.natAbs).length).reverse 0).length := by
      rw [List.take_length, groupRev_length _ 0 (by simpa using hne), List.length_reverse]
      simp
    have hloop := commaInt64Loop_spec (FormatUint i.natAbs) (FormatUint i.natAbs).length
      (Nat.le_refl _) 0 _ [] hm
    rw [List.append_nil] at hloop
    rw [hloop, List.take_length]
    by_cases h : i < 0 <;> simp [h]

theorem commaUint64Loop_eq (s : Bytes) (k : Nat) (st : CommaState) :
    commaUint64Loop s k st = commaInt64Loop s k st := by
  induction k generalizing st with
  | zero => rfl
  | succ k ih =>
    unfold commaUint64Loop commaInt64Loop
    simp only [ih]

/-- What `commaUint64` returns. -/
theorem commaUint64_eq (i : Nat) :
    commaUint64 i = some (groupRev (FormatUint i).reverse 0).reverse := by
  obtain ⟨_, hne, _⟩ := FormatUint_spec i
  have hlen : 0 < (FormatUint i).length := List.length_pos.mpr hne
  unfold commaUint64
  simp only
  by_cases h0 : ((FormatUint i).length - 1) / 3 = 0
  · rw [if_pos h0]
    have hshort : groupRev (FormatUint i).reverse 0 = (FormatUint i).reverse :=
      groupRev_short _ 0 (by rw [List.length_reverse]; omega)
    rw [hshort, List.reverse_reverse]
  · rw [if_neg h0]
    have hm : (FormatUint i).length + ((FormatUint i).length - 1) / 3
        = (groupRev ((FormatUint i).take (FormatUint i).length).reverse 0).length := by
      rw [List.take_length, groupRev_length _ 0 (by simpa using hne), List.length_reverse]
      simp
    have hloop := commaInt64Loop_spec (FormatUint i) (FormatUint i).length
      (Nat.le_refl _) 0 _ [] hm
    rw [List.append_nil] at hloop
    rw [commaUint64Loop_eq, hloop, List.take_length]
    simp

theorem groupRev_struct (n : Nat) : ∀ q : Bytes, q.length = n → q ≠ [] →
    ∃ (first : Bytes) (groups : List Bytes),
      (groupRev q 0).reverse = first ++ groups.flatMap (fun g => 44 :: g) ∧
      1 ≤ first.length ∧ first.length ≤ 3 ∧ (∀ g ∈ groups, g.length = 3) ∧
      first ++ groups.flatten = q.reverse := by
  induction n using Nat.strong_induction_on with
  | _ n ih =>
    intro q hn hq
    match q, hn, hq with
    | [a], _, _ =>
      exact ⟨[a], [], by simp [groupRev], by simp, by simp, by simp, by simp⟩
    | [a, b], _, _ =>
      exact ⟨[b, a], [], by simp [groupRev], by simp, by simp, by simp, by simp⟩
    | [a, b, c], _, _ =>
      exact ⟨[c, b, a], [], by simp [groupRev], by simp, by simp, by simp, by simp⟩
    | a :: b :: c :: d :: q, hn, _ =>
      obtain ⟨first, groups, h1, h2, h3, h4, h5⟩ :=
        ih (d :: q).length (by simp only [List.length_cons] at hn ⊢; omega) (d :: q) rfl (by simp)
      have hstep : groupRev (a :: b :: c :: d :: q) 0
          = a :: b :: c :: 44 :: groupRev (d :: q) 0 := by
        have hp := groupRev_period (d :: q) 0
        simp only [Nat.zero_add] at hp
        rw [← hp]
        simp [groupRev]
      refine ⟨first, groups ++ [[c, b, a]], ?_, h2, h3, ?_, ?_⟩
      · rw [hstep]
        simp only [List.reverse_cons, List.flatMap_append, List.flatMap_cons, List.flatMap_nil,
          List.append_nil]
        rw [h1]
        simp
      · intro g hg
        rcases List.mem_append.mp hg with hg | hg
        · exact h4 g hg
        · rw [List.mem_singleton] at hg; rw [hg]; rfl
      · rw [List.flatten_append, ← List.append_assoc, h5]
        simp

theorem flatten_length_three (groups : List Bytes) (h : ∀ g ∈ groups, g.length = 3) :
    groups.flatten.length = 3 * groups.length := by
  induction groups with
  | nil => rfl
  | cons g gs ih =>
    have hg := h g (List.mem_cons_self _ _)
    have := ih (fun x hx => h x (List.mem_cons_of_mem _ hx))
    simp only [List.flatten_cons, List.length_append, List.length_cons, hg, this]
    omega

/-- C14: for every integer `i`, in particular every `int64` down to the minimum,
`CommaInt64(i)` returns without a panic, deleting every comma from its result gives
exactly `strconv.FormatInt(i, 10)`, and the result holds no zero byte: each of its
bytes is the sign, a comma or a digit. -/
theorem CommaInt64_digits :
    (∀ i : Int, ∃ out, CommaInt64 i = some out ∧
      out.filter (fun b => b ≠ 44) = FormatInt i ∧ (0 : UInt8) ∉ out ∧
      ∀ b ∈ out, b = 45 ∨ b = 44 ∨ (48 ≤ b.toNat ∧ b.toNat ≤ 57)) ∧
    CommaInt64 (-9223372036854775808) = some (str "-9,223,372,036,854,775,808") ∧
    FormatInt (-9223372036854775808) = str "-9223372036854775808" := by
  refine ⟨?_, by decide, by decide⟩
  intro i
  obtain ⟨hdig, _, _⟩ := FormatUint_spec i.natAbs
  have hmem := allDigits_mem hdig
  have h44 : (44 : UInt8) ∉ (FormatUint i.natAbs).reverse := by
    intro h
    have := hmem 44 (List.mem_reverse.mp h)
    exact absurd this (by decide)
  have hbytes : ∀ b ∈ (if i < 0 then [(45 : UInt8)] else [])
      ++ (groupRev (FormatUint i.natAbs).reverse 0).reverse,
      b = 45 ∨ b = 44 ∨ (48 ≤ b.toNat ∧ b.toNat ≤ 57) := by
    intro b hb
    rcases List.mem_append.mp hb with hb | hb
    · left
      by_cases h : i < 0
      · rw [if_pos h] at hb; exact List.mem_singleton.mp hb
      · rw [if_neg h] at hb; cases hb
    · right
      rcases groupRev_mem _ 0 b (List.mem_reverse.mp hb) with h | h
      · left; exact h
      · right; exact hmem b (List.mem_reverse.mp h)
  refine ⟨_, commaInt64_eq i, ?_, ?_, hbytes⟩
  · rw [List.filter_append, List.filter_reverse, groupRev_filter _ 0 h44, List.reverse_reverse]
    unfold FormatInt
    by_cases h : i < 0 <;> simp [h]
  · intro h0
    rcases hbytes 0 h0 with h | h | h
    · exact absurd h (by decide)
    · exact absurd h (by decide)
    · exact absurd h (by decide)

/-- C15: for every integer `i`, in particular every `int64`, the result of
`CommaInt64(i)` is an optional minus sign, a first group of 1 to 3 digits, and then
groups made of a comma and exactly 3 digits; the groups without their commas are the
digits of `i`, and there are (number of digits - 1) / 3 of them. -/
theorem CommaInt64_groups :
    (∀ i : Int, ∃ (first : Bytes) (groups : List Bytes),
      CommaInt64 i = some ((if i < 0 then [45] else []) ++ first
        ++ groups.flatMap (fun g => 44 :: g)) ∧
      1 ≤ first.length ∧ first.length ≤ 3 ∧ allDigits first = true ∧
      (∀ g ∈ groups, g.length = 3 ∧ allDigits g = true) ∧
      groups.length = ((FormatUint i.natAbs).length - 1) / 3 ∧
      first ++ groups.flatten = FormatUint i.natAbs) ∧
    CommaInt64 1000000 = some (str "1,000,000") ∧
    CommaInt64 999 = some (str "999") ∧
    CommaInt64 (-1000) = some (str "-1,000") := by
  refine ⟨?_, by decide, by decide, by decide⟩
  intro i
  obtain ⟨hdig, hne, _⟩ := FormatUint_spec i.natAbs
  have hmem := allDigits_mem hdig
  obtain ⟨first, groups, h1, h2, h3, h4, h5⟩ :=
    groupRev_struct _ (FormatUint i.natAbs).reverse rfl (by simpa using hne)
  rw [List.reverse_reverse] at h5
  have hlen : (FormatUint i.natAbs).length = first.length + 3 * groups.length := by
    rw [← h5, List.length_append, flatten_length_three groups h4]
  refine ⟨first, groups, ?_, h2, h3, ?_, ?_, by omega, h5⟩
  · rw [CommaInt64, commaInt64_eq, h1, List.append_assoc]
  · apply allDigits_of_mem
    intro b hb
    exact hmem b (by rw [← h5]; exact List.mem_append_left _ hb)
  · intro g hg
    refine ⟨h4 g hg, allDigits_of_mem ?_⟩
    intro b hb
    exact hmem b (by rw [← h5]; exact List.mem_append_right _ (List.mem_flatten_of_mem hg hb))

theorem toUint64_nonneg (i : Int) (h0 : 0 ≤ i) (hhi : i < 2 ^ 64) : toUint64 i = i.natAbs := by
  unfold toUint64
  rw [Int.emod_eq_of_lt h0 hhi]
  omega

theorem abs_eq_natAbs (i : Int) (hlo : -(2 ^ 63 : Int) ≤ i) (hhi : i < 2 ^ 63) :
    abs i = i.natAbs := by
  unfold abs
  by_cases hneg : i < 0
  · rw [if_pos hneg]
    unfold toUint64 wrapInt64
    norm_num at hlo hhi ⊢
    omega
  · rw [if_neg hneg]
    exact toUint64_nonneg i (by omega) (by norm_num at hhi ⊢; omega)

theorem wrapInt64_id (i : Int) (hlo : -(2 ^ 63 : Int) ≤ i) (hhi : i < 2 ^ 63) :
    wrapInt64 i = i := by
  unfold wrapInt64
  norm_num at hlo hhi ⊢
  omega

theorem ordinality_eq (m : Nat) : ordinality m = some (ordinalSuffix m) := by
  unfold ordinality ordinalSuffix
  simp only
  by_cases h : m % 100 = 11 ∨ m % 100 = 12 ∨ m % 100 = 13
  · rw [if_pos h, if_pos h]; rfl
  · rw [if_neg h, if_neg h]
    have hlt : m % 10 < 10 := Nat.mod_lt _ (by decide)
    generalize m % 10 = r at hlt
    interval_cases r <;> rfl

/-- C16: for every `int64` `i` and every `uint64` `n`, the four ordinal functions
return, without an index out of range, the base-10 representation of the number
followed by its English ordinal suffix, chosen by the absolute value: "th" when it is
11, 12 or 13 modulo 100, otherwise "st", "nd", "rd" when it is 1, 2, 3 modulo 10,
otherwise "th". -/
theorem Ordinal_spec (i : Int) (n : Nat)
    (hlo : -(2 ^ 63 : Int) ≤ i) (hhi : i < 2 ^ 63) (hn : n < 2 ^ 64) :
    OrdinalInt64 i = some (FormatInt i ++ ordinalSuffix i.natAbs) ∧
    OrdinalInt i = some (FormatInt i ++ ordinalSuffix i.natAbs) ∧
    OrdinalUint64 n = some (FormatUint n ++ ordinalSuffix n) ∧
    OrdinalUint n = some (FormatUint n ++ ordinalSuffix n) ∧
    fieldValue (FormatInt i) = some i ∧
    decimalValue (FormatUint n) = n ∧
    OrdinalInt 2 = some (str "2nd") ∧ OrdinalInt64 3 = some (str "3rd") ∧
    OrdinalUint 4 = some (str "4th") ∧ OrdinalUint64 42 = some (str "42nd") ∧
    OrdinalInt 211 = some (str "211th") := by
  refine ⟨?_, ?_, ?_, ?_, fieldValue_FormatInt i, (FormatUint_spec n).2.2,
    by decide, by decide, by decide, by decide, by decide⟩
  · rw [OrdinalInt64, abs_eq_natAbs i hlo hhi, ordinality_eq]; rfl
  · rw [OrdinalInt, wrapInt64_id i hlo hhi, abs_eq_natAbs i hlo hhi, ordinality_eq]; rfl
  · rw [OrdinalUint64, ordinality_eq]; rfl
  · have h : toUint64 (n : Int) = n := by
      rw [toUint64_nonneg (n : Int) (by omega) (by exact_mod_cast hn)]
      simp
    rw [OrdinalUint, h, ordinality_eq]; rfl

theorem Ordinal_spec_witness :
    OrdinalInt64 (-9223372036854775808) = some (str "-9223372036854775808th") ∧
    OrdinalUint64 18446744073709551613 = some (str "18446744073709551613th") ∧
    OrdinalInt64 (-9223372036854775808)
      = some (FormatInt (-9223372036854775808) ++ ordinalSuffix 9223372036854775808) :=
  ⟨by decide, by decide,
   (Ordinal_spec (-9223372036854775808) 18446744073709551613
     (by decide) (by decide) (by decide)).1⟩

/-- C19: for every `int64` `i` that is not negative `CommaInt64(i)` equals
`CommaUint64(uint64(i))`, and for every negative one it equals a minus sign followed
by `CommaUint64` of the absolute value of `i`, which is `2^63` for the minimum. -/
theorem CommaInt64_CommaUint64 (i : Int) (hlo : -(2 ^ 63 : Int) ≤ i) (hhi : i < 2 ^ 63) :
    (0 ≤ i → CommaInt64 i = CommaUint64 (toUint64 i)) ∧
    (i < 0 → CommaInt64 i = (CommaUint64 i.natAbs).map (fun s => 45 :: s)) ∧
    (i = -(2 ^ 63 : Int) → i.natAbs = 2 ^ 63) := by
  refine ⟨?_, ?_, ?_⟩
  · intro h0
    have hneg : ¬ i < 0 := by omega
    rw [toUint64_nonneg i h0 (by norm_num at hhi ⊢; omega), CommaInt64, CommaUint64,
      commaInt64_eq, commaUint64_eq, if_neg hneg]
    rfl
  · intro hneg
    rw [CommaInt64, CommaUint64, commaInt64_eq, commaUint64_eq, if_pos hneg]
    rfl
  · intro h
    rw [h]
    norm_num

theorem CommaInt64_CommaUint64_witness :
    CommaInt64 (-9223372036854775808)
      = (CommaUint64 9223372036854775808).map (fun s => 45 :: s) ∧
    CommaUint64 9223372036854775808 = some (str "9,223,372,036,854,775,808") ∧
    CommaInt64 9223372036854775807 = CommaUint64 (toUint64 9223372036854775807) :=
  ⟨(CommaInt64_CommaUint64 (-9223372036854775808) (by decide) (by decide)).2.1 (by decide),
   by decide,
   (CommaInt64_CommaUint64 9223372036854775807 (by decide) (by decide)).1 (by decide)⟩

/-! ## A count of zero -/

/-- C3, as amended: `Check` returns count 0 with a nil error only when the client got
a reply of status 200 and, when every line of the body of that reply is shorter than
`MaxScanTokenSize` bytes, the body has at least one valid line and either no valid
line of the body has the suffix computed for the password or the first valid line
that has it carries the count 0. -/
theorem Check_zero_only (env : Env) (c : Client) (password : Bytes)
    (h : (Check env c password).ret = some (0, none)) :
    ∃ resp, Answers env c password resp ∧ resp.StatusCode = 200 ∧
      ((∀ l ∈ bodyLines resp.Body.data, l.length < MaxScanTokenSize) →
        filterPass env.intSize resp.Body.data ≠ [] ∧
        ((∀ x ∈ filterPass env.intSize resp.Body.data,
            x.suffix ≠ (HashPassword password).2) ∨
         ∃ pre r post, filterPass env.intSize resp.Body.data = pre ++ r :: post ∧
           (∀ x ∈ pre, x.suffix ≠ (HashPassword password).2) ∧
           r.suffix = (HashPassword password).2 ∧ r.count = 0)) := by
  rcases Check_ret_cases h with ⟨e, he⟩ | ⟨resp, hans, h200, hne, hout⟩
  · have := (Prod.mk.inj he).1
    omega
  · refine ⟨resp, hans, h200, ?_⟩
    intro hshort
    have hrec : (readHashes env.intSize resp.Body).1 = filterPass env.intSize resp.Body.data :=
      readHashes_short env.intSize resp.Body.eofWithData resp.Body.data hshort
    rw [hrec] at hne hout
    exact ⟨hne, checkLoop_zero hout.symm⟩

set_option maxRecDepth 100000 in
theorem Check_zero_only_witness :
    (Check env64 (clientServing (str "200 OK") 200 testAPIOutput) []).ret = some (0, none) ∧
    (∀ l ∈ bodyLines testAPIOutput, l.length < MaxScanTokenSize) ∧
    (∀ x ∈ filterPass 64 testAPIOutput, x.suffix ≠ (HashPassword []).2) ∧
    ∃ resp, Answers env64 (clientServing (str "200 OK") 200 testAPIOutput) [] resp ∧
      resp.StatusCode = 200 ∧
      ((∀ l ∈ bodyLines resp.Body.data, l.length < MaxScanTokenSize) →
        filterPass env64.intSize resp.Body.data ≠ [] ∧
        ((∀ x ∈ filterPass env64.intSize resp.Body.data, x.suffix ≠ (HashPassword []).2) ∨
         ∃ pre r post, filterPass env64.intSize resp.Body.data = pre ++ r :: post ∧
           (∀ x ∈ pre, x.suffix ≠ (HashPassword []).2) ∧
           r.suffix = (HashPassword []).2 ∧ r.count = 0)) :=
  ⟨by decide, by decide, by decide,
   Check_zero_only env64 (clientServing (str "200 OK") 200 testAPIOutput) [] (by decide)⟩

theorem hiddenMatchBody_lines :
    bodyLines hiddenMatchBody
      = [str "ABC:1", List.replicate 65536 65,
         str "1E4C9B93F3F0682250B6CF8331B7EE68FD8:3303003"] := by
  have e4 : bodyLines (str "1E4C9B93F3F0682250B6CF8331B7EE68FD8:3303003\n")
      = [str "1E4C9B93F3F0682250B6CF8331B7EE68FD8:3303003"] := by decide
  have e5 : (10 : UInt8) ∉ str "ABC:1" := by decide
  unfold hiddenMatchBody
  rw [bodyLines_line _ _ e5, bodyLines_line _ _ longLine_no_lf, e4]

theorem hiddenMatchBody_records (e : Bool) :
    readHashes 64 ⟨hiddenMatchBody, e⟩ = ([⟨str "ABC", 1⟩], none) := by
  have e1 : lineRecord 64 (dropCR (str "ABC:1")) = some ⟨str "ABC", 1⟩ := by decide
  have e5 : (10 : UInt8) ∉ str "ABC:1" := by decide
  have e6 : ([] : Bytes).length + (str "ABC:1").length < MaxScanTokenSize := by decide
  have hs : scanTexts ⟨hiddenMatchBody, e⟩ = [dropCR (str "ABC:1")] := by
    unfold scanTexts hiddenMatchBody
    show scanLoop e _ [] = _
    rw [scanLoop_line e _ _ [] e5, if_pos e6,
      scanLoop_line e _ _ [] longLine_no_lf, if_neg (longLine_too_long _)]
    rfl
  have h1 : (readHashes 64 ⟨hiddenMatchBody, e⟩).1 = [⟨str "ABC", 1⟩] := by
    rw [readHashes_eq, hs, List.filterMap_cons_some e1, List.filterMap_nil]
  have h2 := readHashes_snd 64 ⟨hiddenMatchBody, e⟩
  rw [h1, if_neg (by simp)] at h2
  exact Prod.ext h1 h2

set_option maxRecDepth 100000 in
/-- Beyond the line bound a count of 0 says nothing about the body: the third line
of `hiddenMatchBody` is the record of the password "password" with count 3303003,
but the scan ends at the second line, which has `MaxScanTokenSize` bytes, and
`Check` returns count 0 with a nil error. -/
theorem Check_hiddenMatch :
    filterPass 64 hiddenMatchBody
      = [⟨str "ABC", 1⟩, ⟨str "1E4C9B93F3F0682250B6CF8331B7EE68FD8", 3303003⟩] ∧
    (HashPassword (str "password")).2 = str "1E4C9B93F3F0682250B6CF8331B7EE68FD8" ∧
    (Check env64 (clientServing (str "200 OK") 200 hiddenMatchBody) (str "password")).ret
      = some (0, none) := by
  have e1 : lineRecord 64 (dropCR (str "ABC:1")) = some ⟨str "ABC", 1⟩ := by decide
  have e2 := lineRecord_no_colon 64 _ longLine_no_colon
  have e3 : lineRecord 64 (dropCR (str "1E4C9B93F3F0682250B6CF8331B7EE68FD8:3303003"))
      = some ⟨str "1E4C9B93F3F0682250B6CF8331B7EE68FD8", 3303003⟩ := by decide
  refine ⟨?_, by decide, ?_⟩
  · unfold filterPass
    rw [hiddenMatchBody_lines,
      List.filterMap_cons_some (f := fun l => lineRecord 64 (dropCR l)) e1,
      List.filterMap_cons_none (f := fun l => lineRecord 64 (dropCR l)) e2,
      List.filterMap_cons_some (f := fun l => lineRecord 64 (dropCR l)) e3,
      List.filterMap_nil]
  · rw [Check_clientServing, hiddenMatchBody_records false]
    have : checkLoop [⟨str "ABC", 1⟩] (HashPassword (str "password")).2 = (0, none) := by
      decide
    simp [this]

end PwnedPasswords
